import Mathlib

/-!
Verification of the c3nav routing engine's room-router core, a shallow
embedding of `src/c3nav/routing/room.py` and `src/c3nav/routing/level.py`.

Numeric modelling: the numpy float matrices (float16/float32) are modelled
as exact extended rationals `WithTop ℚ`, with `⊤` playing the role of
`np.inf` ("no direct edge" / hard exclusion).  Floating-point rounding is
idealised away; all constants appearing in the source (1, 1000, inf) are
exactly representable in every float width the source uses.
-/

abbrev Cost := WithTop ℚ

/-! ### The compiled room (`GraphRoom.finish_build` output)

`room.py` stores the compiled connection data in two parallel tuples
`self.ctypes : tuple[str]` / `self.distances : ndarray[ctype, n, n]` and
`self.excludables : tuple[str]` / `self.excludable_points : ndarray[excludable, n]`.
We zip each parallel pair into one list of pairs, which carries the same
information.  `points` is the local-index → global-id table `self.points`.
Fields of the python class not used by the routing claims
(`room_transfer_points`, `areas`, `level`, serialization) are omitted. -/

structure GraphRoom where
  n : ℕ
  layers : List (String × (Fin n → Fin n → Cost))
  excludables : List (String × (Fin n → Bool))
  i : ℕ
  points : Fin n → ℕ

def GraphRoom.ctypes (r : GraphRoom) : List String := r.layers.map Prod.fst

def GraphRoom.excludableNames (r : GraphRoom) : List String := r.excludables.map Prod.fst

/-- `tuple(i for i, x in enumerate(xs) if x in sel)` — the index-selection
pattern used in the first three lines of `GraphRoom.build_router`. -/
def selectedIdxs (xs : List String) (sel : List String) : List ℕ :=
  (xs.enum.filter (fun p => sel.contains p.2)).map Prod.fst

/-! ### `GraphRoom._build_router` (room.py lines 270-294) -/

/-- `ctype_factors`: `np.ones((len(self.ctypes), 1, 1))*1000` followed by
`ctype_factors[ctypes, :, :] = 1`, read off at layer index `ℓ`. -/
def ctypeFactor (ctypes : List ℕ) (ℓ : ℕ) : Cost :=
  if ctypes.contains ℓ then 1 else 1000

/-- `distances = np.amin(self.distances*ctype_factors, axis=0)`:
the elementwise minimum over all ctype layers of the layer's distance
matrix scaled by its ctype factor. -/
def GraphRoom.collapsed (r : GraphRoom) (ctypes : List ℕ) :
    Fin r.n → Fin r.n → Cost :=
  fun i j =>
    Finset.univ.inf fun ℓ : Fin r.layers.length =>
      (r.layers.get ℓ).2 i j * ctypeFactor ctypes ℓ.val

/-- `factors[points[:, None], :] = v` — overwrite the rows of the points
satisfying `P` with the constant `v`. -/
def setRows {n : ℕ} (f : Fin n → Fin n → Cost) (P : Fin n → Bool) (v : Cost) :
    Fin n → Fin n → Cost :=
  fun i j => if P i then v else f i j

/-- `factors[:, points] = v` — overwrite the columns of the points
satisfying `P` with the constant `v`. -/
def setCols {n : ℕ} (f : Fin n → Fin n → Cost) (P : Fin n → Bool) (v : Cost) :
    Fin n → Fin n → Cost :=
  fun i j => if P j then v else f i j

/-- `factors[points[:, None], :] = np.maximum(factors[points[:, None], :], v)`. -/
def maxRows {n : ℕ} (f : Fin n → Fin n → Cost) (P : Fin n → Bool) (v : Cost) :
    Fin n → Fin n → Cost :=
  fun i j => if P i then max (f i j) v else f i j

/-- `factors[:, points] = np.maximum(factors[:, points], v)`. -/
def maxCols {n : ℕ} (f : Fin n → Fin n → Cost) (P : Fin n → Bool) (v : Cost) :
    Fin n → Fin n → Cost :=
  fun i j => if P j then max (f i j) v else f i j

/-- The membership row selected by `self.excludables.index(':nonpublic')`
(python `.index` returns the first hit, as does `List.find?`). -/
def GraphRoom.nonpublicRow (r : GraphRoom) : Option (Fin r.n → Bool) :=
  (r.excludables.find? (fun e => e.1 == ":nonpublic")).map Prod.snd

def GraphRoom.nonpublic_points (r : GraphRoom) : Fin r.n → Bool :=
  match r.nonpublicRow with
  | some row => row
  | none => fun _ => false

/-- Python membership test of the string `':nonpublic'` in a tuple of
integers.  In `_build_router` the parameter `include` has already been
converted to a tuple of indices, so `':nonpublic' not in include` compares
a string with integers and is always true; this constant models that test. -/
def strInIntTuple (_l : List ℕ) : Bool := false

/-- The guard `':nonpublic' in self.excludables and ':nonpublic' not in include`
of `_build_router` (see `strInIntTuple` for the second conjunct). -/
def GraphRoom.nonpublicGuard (r : GraphRoom) (inclIdxs : List ℕ) : Bool :=
  r.excludableNames.contains ":nonpublic" && !(strInIntTuple inclIdxs)

/-- `points, = self.excludable_points[idxs, :].any(axis=0).nonzero()`:
a local point is selected iff some excludable whose index is in `idxs`
contains it. -/
def GraphRoom.memberPoints (r : GraphRoom) (idxs : List ℕ) : Fin r.n → Bool :=
  fun p => (r.excludables.enum.filter (fun e => idxs.contains e.1)).any
    (fun e => e.2.2 p)

/-- The `factors` matrix right after the `:nonpublic` block of
`_build_router`: initialised to all ones, then (when the guard holds) the
rows and then the columns of the `:nonpublic` points are set to
`1000 if allow_nonpublic else np.inf`. -/
def GraphRoom.factors1 (r : GraphRoom) (allow_nonpublic : Bool)
    (inclIdxs : List ℕ) : Fin r.n → Fin r.n → Cost :=
  if r.nonpublicGuard inclIdxs then
    match r.nonpublicRow with
    | some row =>
        setCols (setRows (fun _ _ => 1) row (if allow_nonpublic then 1000 else ⊤))
          row (if allow_nonpublic then 1000 else ⊤)
    | none => fun _ _ => 1
  else fun _ _ => 1

/-- The `factors` matrix after the `if avoid:` block: the rows and then the
columns of the avoid-member points are raised to at least 1000 with
`np.maximum`. -/
def GraphRoom.factors2 (r : GraphRoom) (allow_nonpublic : Bool)
    (avoidIdxs inclIdxs : List ℕ) : Fin r.n → Fin r.n → Cost :=
  if avoidIdxs.isEmpty then r.factors1 allow_nonpublic inclIdxs
  else
    maxCols (maxRows (r.factors1 allow_nonpublic inclIdxs)
      (r.memberPoints avoidIdxs) 1000) (r.memberPoints avoidIdxs) 1000

/-- The final `factors` matrix, after the `if include:` block: the rows and
then the columns of the include-member points are forced back to 1. -/
def GraphRoom.factors3 (r : GraphRoom) (allow_nonpublic : Bool)
    (avoidIdxs inclIdxs : List ℕ) : Fin r.n → Fin r.n → Cost :=
  if inclIdxs.isEmpty then r.factors2 allow_nonpublic avoidIdxs inclIdxs
  else
    setCols (setRows (r.factors2 allow_nonpublic avoidIdxs inclIdxs)
      (r.memberPoints inclIdxs) 1) (r.memberPoints inclIdxs) 1

/-- `distances*factors` — the weighted adjacency matrix handed to
`csgraph_from_dense(..., null_value=np.inf)`. -/
def GraphRoom.weighted (r : GraphRoom) (ctypeIdxs : List ℕ)
    (allow_nonpublic : Bool) (avoidIdxs inclIdxs : List ℕ) :
    Fin r.n → Fin r.n → Cost :=
  fun i j => r.collapsed ctypeIdxs i j *
    r.factors3 allow_nonpublic avoidIdxs inclIdxs i j

/-! ### All-pairs shortest paths

`scipy.sparse.csgraph.shortest_path` on the dense matrix (with `np.inf` as
the null value) returns the exact all-pairs shortest-path distances of the
weighted graph.  We model it by `n` rounds of Bellman-Ford-style
relaxation, which computes the minimum cost over all walks of at most `n`
edges; for the non-negative weights produced by the build this is the
exact shortest-path distance (proved below via the walk-shortening
lemmas). -/

def bf {n : ℕ} (w : Fin n → Fin n → Cost) : ℕ → Fin n → Fin n → Cost
  | 0 => fun i j => if i = j then 0 else ⊤
  | k+1 => fun i j =>
      min (bf w k i j) (Finset.univ.inf fun m => w i m + bf w k m j)

def shortest_path {n : ℕ} (w : Fin n → Fin n → Cost) : Fin n → Fin n → Cost :=
  bf w n

/-- Cost of the walk `i :: l`, constrained to end at `j` (cost `⊤` if it
does not); the auxiliary notion used to relate `bf` to walks. -/
def walkCost {n : ℕ} (w : Fin n → Fin n → Cost) :
    Fin n → List (Fin n) → Fin n → Cost
  | i, [], j => if i = j then 0 else ⊤
  | i, m :: l, j => w i m + walkCost w m l j

/-- The `RoomRouter` namedtuple.  The predecessor matrix is determined by
the same shortest-path computation; the claims under scrutiny only concern
the distance table, so the router is modelled by it. -/
def RoomRouter := Σ n : ℕ, Fin n → Fin n → Cost

/-- `GraphRoom._build_router` (room.py line 270): build the weighted matrix
and run all-pairs shortest paths on it. -/
def GraphRoom._build_router (r : GraphRoom) (ctypeIdxs : List ℕ)
    (allow_nonpublic : Bool) (avoidIdxs inclIdxs : List ℕ) : RoomRouter :=
  ⟨r.n, shortest_path (r.weighted ctypeIdxs allow_nonpublic avoidIdxs inclIdxs)⟩

/-! ### `GraphRoom.build_router` and the router cache (room.py lines 254-268)

`router_cache = {}` is a class-level dict on `GraphRoom`, i.e. one mutable
mapping shared by every `GraphRoom` instance of the process
(`self.router_cache[...] = ...` mutates that shared dict in place).  It is
modelled as an association list threaded through `build_router` calls of
arbitrary rooms; newest entries are consed to the front. -/

abbrev RouterCache := List (String × RoomRouter)

/-- `self.router_cache.get(cache_key)`. -/
def RouterCache.get (c : RouterCache) (k : String) : Option RoomRouter :=
  (List.find? (fun e => e.1 == k) c).map Prod.snd

/-- `','.join(str(i) for i in idxs)`. -/
def joinComma (l : List ℕ) : String :=
  String.intercalate "," (l.map Nat.repr)

/-- The cache key format string
`'c3nav__graph__roomrouter__%s__%s__%s__%d__%s__%s'` applied to
`(graph.mtime, room.i, ctypes, allow_nonpublic, avoid, include)`.
`graph.mtime` (the Graph build version, a monotonically increasing stamp;
the Graph class itself is outside the analysed sources) is modelled as a
natural number.  `'%d' % allow_nonpublic` renders a python bool as `1`/`0`. -/
def cache_key (mtime : ℕ) (room_i : ℕ) (ctypeIdxs : List ℕ)
    (allow_nonpublic : Bool) (avoidIdxs inclIdxs : List ℕ) : String :=
  "c3nav__graph__roomrouter__" ++ Nat.repr mtime ++ "__" ++ Nat.repr room_i
    ++ "__" ++ joinComma ctypeIdxs ++ "__"
    ++ (if allow_nonpublic then "1" else "0") ++ "__" ++ joinComma avoidIdxs
    ++ "__" ++ joinComma inclIdxs

/-- `GraphRoom.build_router` (room.py line 256).  Returns the router, the
cache state after the call, and whether `_build_router` was actually run
(the recomputation flag; `if not roomrouter:` is a miss test, since a
`RoomRouter` namedtuple is always truthy). -/
def GraphRoom.build_router (r : GraphRoom) (mtime : ℕ)
    (allowed_ctypes : List String) (allow_nonpublic : Bool)
    (avoid incl : List String) (router_cache : RouterCache) :
    RoomRouter × RouterCache × Bool :=
  match router_cache.get (cache_key mtime r.i (selectedIdxs r.ctypes allowed_ctypes)
      allow_nonpublic (selectedIdxs r.excludableNames avoid)
      (selectedIdxs r.excludableNames incl)) with
  | some roomrouter => (roomrouter, router_cache, false)
  | none =>
      (r._build_router (selectedIdxs r.ctypes allowed_ctypes) allow_nonpublic
        (selectedIdxs r.excludableNames avoid) (selectedIdxs r.excludableNames incl),
       (cache_key mtime r.i (selectedIdxs r.ctypes allowed_ctypes) allow_nonpublic
          (selectedIdxs r.excludableNames avoid) (selectedIdxs r.excludableNames incl),
        r._build_router (selectedIdxs r.ctypes allowed_ctypes) allow_nonpublic
          (selectedIdxs r.excludableNames avoid)
          (selectedIdxs r.excludableNames incl)) :: router_cache,
       true)

/-! ### `GraphRoom.get_connection` (room.py lines 296-302) -/

/-- `np.argmin`: index of the first occurrence of the minimum (0 for a
stack of equal values, in particular for an all-`inf` stack). -/
def argmin : List Cost → ℕ
  | [] => 0
  | x :: xs => if xs.all (fun y => decide (x ≤ y)) then 0 else argmin xs + 1

/-- The `GraphConnection` object built by `get_connection`; the two point
objects are represented by their global point ids
(`self.graph.points[self.points[...]]`). -/
structure GraphConnection where
  from_point : ℕ
  to_point : ℕ
  distance : Cost
  ctype : String

def GraphRoom.get_connection (r : GraphRoom) (from_i to_i : Fin r.n) :
    GraphConnection :=
  let stack := r.layers.map (fun L => L.2 from_i to_i)
  let min_i := argmin stack
  { from_point := r.points from_i
    to_point := r.points to_i
    distance := stack.getD min_i ⊤
    ctype := r.ctypes.getD min_i "" }

/-! ### Room building: `prepare_build` / `add_point` (room.py lines 54-71, 196-203)

The shapely/matplotlib geometry kernel is external to the routing code; it
is abstracted as a record of the operations the analysed code calls.
`buffer r g` is `g.buffer(r, join_style=JOIN_STYLE.mitre)`, `is_empty` is
`.is_empty`, and `mpl_contains g c` is
`shapely_to_mpl(g).contains_point(c)`. -/

structure GeomOps (G : Type) where
  buffer : ℚ → G → G
  is_empty : G → Bool
  mpl_contains : G → ℚ × ℚ → Bool

/-- The room state produced by a successful `prepare_build`: the clearance
geometry, the containment test of its 0.01-buffered version, and the
accumulated `_built_points` (each point recorded by its coordinate). -/
structure RoomBuildState (G : Type) where
  clear_geometry : G
  mpl_clear : ℚ × ℚ → Bool
  built_points : List (ℚ × ℚ)

/-- `GraphRoom.prepare_build`: shrink the accessible geometry inward by the
0.3 wall clearance; fail (return `False`, here `none`) if the result is
empty, else set up `mpl_clear` from the clearance polygon buffered by the
0.01 tolerance.  The stair/escalator bookkeeping of the python method is
not consumed by the claims and is omitted. -/
def prepare_build {G : Type} (ops : GeomOps G) (geometry : G) :
    Option (RoomBuildState G) :=
  let clear_geometry := ops.buffer (-(3/10)) geometry
  if ops.is_empty clear_geometry then none
  else some
    { clear_geometry := clear_geometry
      mpl_clear := ops.mpl_contains (ops.buffer (1/100) clear_geometry)
      built_points := [] }

/-- `GraphRoom.add_point`: reject (returning `[]`) any coordinate outside
`mpl_clear`; otherwise create the point, append it to `_built_points` and
return it in a singleton list.  (The python method also registers the
point with each area; areas are not part of the modelled state.) -/
def add_point {G : Type} (st : RoomBuildState G) (coord : ℚ × ℚ) :
    RoomBuildState G × List (ℚ × ℚ) :=
  if st.mpl_clear coord then
    ({ st with built_points := st.built_points ++ [coord] }, [coord])
  else (st, [])

/-- Offering a whole list of candidate coordinates to `add_point`, as the
build steps (`build_points`, `_add_ring`, `add_points_on_rings`) do. -/
def add_points {G : Type} (st : RoomBuildState G) (coords : List (ℚ × ℚ)) :
    RoomBuildState G :=
  coords.foldl (fun s c => (add_point s c).1) st

/-- A finished room as seen by the build loop: its points and connections. -/
structure BuiltRoom where
  points : List (ℚ × ℚ)
  connections : List ((ℚ × ℚ) × (ℚ × ℚ))

/-- Modelled from the spec: the per-room graph build loop (the caller of
`prepare_build`, which lives in the Graph/Level build driver outside the
analysed sources).  "Malformed or missing input geometry (no accessible
area, degenerate polygon) yields an empty room (no points, no connections)
rather than raising": when `prepare_build` returns `False` the room is
skipped and stays empty; otherwise the remaining build steps
(`build_areas`, `build_points`, `build_connections`, `finish_build`) run,
abstracted here as the continuation `rest`. -/
def build_room {G : Type} (ops : GeomOps G) (rest : RoomBuildState G → BuiltRoom)
    (geometry : G) : BuiltRoom :=
  match prepare_build ops geometry with
  | none => { points := [], connections := [] }
  | some st => rest st

/-! ### `GraphLevel.create_doors` (level.py lines 46-67)

Geometry is abstracted as for the room build: `G` is the type of shapely
geometries, `P` of intersection polygons.  `intersects g h` is
`g.intersects(h)`, `intersection g h` is
`assert_multipolygon(g.intersection(h))`, `centroid`/`door_centroid` give
centroids and `nearest g c` is `get_nearest_point(g, c)`. -/

structure DoorOps (G P : Type) where
  buffer : ℚ → G → G
  intersects : G → G → Bool
  intersection : G → G → List P
  centroid : P → ℚ × ℚ
  door_centroid : G → ℚ × ℚ
  nearest : G → ℚ × ℚ → ℚ × ℚ

/-- The fields of a room consumed by `create_doors`. -/
structure DoorRoom (G : Type) where
  geometry : G
  clear_geometry : G

/-- Result of processing one door polygon. -/
structure DoorBuild where
  center : ℚ × ℚ
  door_points : List (ℚ × ℚ)
  connections : List ((ℚ × ℚ) × (ℚ × ℚ))
  num_points : ℕ
  warned : Bool

/-- The points created for one door: for every room whose geometry
intersects the 0.01-buffered door polygon, one point per intersection
subpolygon, placed at the nearest point of the room's clearance geometry
to the subpolygon's centroid. -/
def door_room_points {G P : Type} (ops : DoorOps G P) (rooms : List (DoorRoom G))
    (door : G) : List (ℚ × ℚ) :=
  let polygon := ops.buffer (1/100) door
  rooms.foldl (fun acc room =>
    if ops.intersects polygon room.geometry then
      acc ++ (ops.intersection polygon room.geometry).map
        (fun sub => ops.nearest room.clear_geometry (ops.centroid sub))
    else acc) []

/-- The body of the per-door loop of `create_doors`: create the synthetic
center point, connect it bidirectionally (`center_point.connect_to(point)`
and `point.connect_to(center_point)`) to each created room point, count
the created points, and warn iff `num_points < 2`. -/
def create_door {G P : Type} (ops : DoorOps G P) (rooms : List (DoorRoom G))
    (door : G) : DoorBuild :=
  let center := ops.door_centroid door
  let pts := door_room_points ops rooms door
  { center := center
    door_points := pts
    connections := pts.foldr (fun p acc => (center, p) :: (p, center) :: acc) []
    num_points := pts.length
    warned := decide (pts.length < 2) }

/-- The number of rooms a door actually connects to (rooms contributing at
least one created point) — the quantity the specification's warning
criterion speaks about. -/
def door_connected_rooms {G P : Type} (ops : DoorOps G P)
    (rooms : List (DoorRoom G)) (door : G) : ℕ :=
  (rooms.filter (fun room =>
    ops.intersects (ops.buffer (1/100) door) room.geometry &&
      !(ops.intersection (ops.buffer (1/100) door) room.geometry).isEmpty)).length

/-! ### Decimal strings

`cache_key` embeds numbers via `Nat.repr`.  To show that distinct `mtime`
values can never produce colliding keys we need that `Nat.repr` is
injective and produces digit characters only; core provides no such
lemmas, so we prove them via an explicit big-endian digit list and an
evaluation function. -/

/-- Numeric value of a decimal digit character. -/
def digitVal (c : Char) : ℕ := c.toNat - 48

/-- Value of a big-endian digit string. -/
def listVal (l : List Char) : ℕ := l.foldl (fun a c => 10 * a + digitVal c) 0

/-- Fuel-indexed big-endian decimal digits, mirroring the recursion
structure of `Nat.toDigitsCore`. -/
def digitsBEAux : ℕ → ℕ → List Char
  | 0, _ => []
  | fuel+1, n =>
    if n / 10 = 0 then [Nat.digitChar (n % 10)]
    else digitsBEAux fuel (n / 10) ++ [Nat.digitChar (n % 10)]

/-! ### Concrete instances used in the scenario claims and witnesses -/

/-- Symmetric two-point distance matrix: the single edge `0 ↔ 1` with
distance `d`, `inf` on the diagonal (compiled matrices are initialised to
`inf` and no self-connections are built). -/
def mat2 (d : Cost) : Fin 2 → Fin 2 → Cost :=
  fun i j => if i = j then ⊤ else d

/-- The spec scenario room: two points joined by a 2-unit stair edge and by
a 5-unit walk-only route. -/
def scenarioRoom : GraphRoom where
  n := 2
  layers := [("walk", mat2 ((5:ℚ) : Cost)), ("stair", mat2 ((2:ℚ) : Cost))]
  excludables := []
  i := 0
  points := fun p => p.val

/-- Walk matrix of `nonpublicRoom`: edges `1 ↔ 0` (distance 3) and
`0 ↔ 2` (distance 4); no direct `1 ↔ 2` edge. -/
def walk3 : Fin 3 → Fin 3 → Cost :=
  fun i j =>
    if (i.val = 0 ∧ j.val = 1) ∨ (i.val = 1 ∧ j.val = 0) then ((3:ℚ) : Cost)
    else if (i.val = 0 ∧ j.val = 2) ∨ (i.val = 2 ∧ j.val = 0) then ((4:ℚ) : Cost)
    else ⊤

/-- A room with a `:nonpublic`-tagged point 0 sitting between points 1 and
2, which are tagged with another excludable group `vip`. -/
def nonpublicRoom : GraphRoom where
  n := 3
  layers := [("walk", walk3)]
  excludables := [(":nonpublic", fun p => p.val == 0), ("vip", fun p => p.val != 0)]
  i := 0
  points := fun p => p.val

/-- First of two distinct `GraphRoom` instances that share `i`, ctype
names and graph version but have different geometry (walk edge 5). -/
def roomA : GraphRoom where
  n := 2
  layers := [("walk", mat2 ((5:ℚ) : Cost))]
  excludables := []
  i := 0
  points := fun p => p.val

/-- Second instance: identical to `roomA` except the walk edge is 7. -/
def roomB : GraphRoom where
  n := 2
  layers := [("walk", mat2 ((7:ℚ) : Cost))]
  excludables := []
  i := 0
  points := fun p => p.val

/-- A toy geometry kernel for the build witnesses: a geometry is a `Bool`
recording whether it is empty; buffering keeps it, and containment accepts
exactly the coordinates with non-negative first component. -/
def toyGeomOps : GeomOps Bool where
  buffer := fun _ g => g
  is_empty := fun g => g
  mpl_contains := fun _ c => decide (0 ≤ c.1)

/-- A toy geometry kernel for the door counterexample: every room
intersects the door, and the intersection decomposes into two disjoint
subpolygons (represented by their centroids). -/
def toyDoorOps : DoorOps ℕ (ℚ × ℚ) where
  buffer := fun _ g => g
  intersects := fun _ _ => true
  intersection := fun _ _ => [((0:ℚ), (0:ℚ)), ((1:ℚ), (0:ℚ))]
  centroid := fun s => s
  door_centroid := fun _ => ((0:ℚ), (0:ℚ))
  nearest := fun _ c => c

/-- A single room for the door counterexample. -/
def toyDoorRooms : List (DoorRoom ℕ) := [{ geometry := 0, clear_geometry := 0 }]

/-! ## Theorems -/

/-! ### Cost arithmetic helpers -/

theorem inf_univ_eq_foldr {n : ℕ} (f : Fin n → Cost) :
    Finset.univ.inf f = ((List.finRange n).map f).foldr min ⊤ := by
  show Finset.fold min ⊤ f _ = _
  rw [Finset.fold]
  rw [show (Finset.univ : Finset (Fin n)).val
      = ((List.finRange n : List (Fin n)) : Multiset (Fin n)) from rfl]
  rw [Multiset.map_coe, Multiset.coe_fold_r]

theorem cost_mul_nonneg {a b : Cost} (ha : 0 ≤ a) (hb : 0 ≤ b) : 0 ≤ a * b := by
  induction a using WithTop.recTopCoe with
  | top =>
    induction b using WithTop.recTopCoe with
    | top => simp
    | coe q =>
      rcases eq_or_ne q 0 with rfl | hq
      · simp
      · rw [WithTop.top_mul (by exact_mod_cast hq)]; exact le_top
  | coe p =>
    induction b using WithTop.recTopCoe with
    | top =>
      rcases eq_or_ne p 0 with rfl | hp
      · simp
      · rw [WithTop.mul_top (by exact_mod_cast hp)]; exact le_top
    | coe q =>
      rw [← WithTop.coe_mul]
      exact_mod_cast mul_nonneg (by exact_mod_cast ha) (by exact_mod_cast hb)

theorem cost_mul_pos {a b : Cost} (ha : 0 < a) (hb : 0 < b) : 0 < a * b := by
  induction a using WithTop.recTopCoe with
  | top =>
    induction b using WithTop.recTopCoe with
    | top => simp [WithTop.top_mul_top]
    | coe q =>
      rw [WithTop.top_mul (by exact_mod_cast hb.ne' : (q : Cost) ≠ 0)]
      · exact WithTop.coe_lt_top 0
  | coe p =>
    induction b using WithTop.recTopCoe with
    | top =>
      rw [WithTop.mul_top (by exact_mod_cast ha.ne' : (p : Cost) ≠ 0)]
      · exact WithTop.coe_lt_top 0
    | coe q =>
      rw [← WithTop.coe_mul]
      exact_mod_cast mul_pos (by exact_mod_cast ha) (by exact_mod_cast hb)

theorem cost_pos_mul_top {a : Cost} (ha : 0 < a) : a * ⊤ = ⊤ := by
  induction a using WithTop.recTopCoe with
  | top => exact WithTop.top_mul_top
  | coe p => exact WithTop.mul_top (by exact_mod_cast ha.ne')

theorem cost_top_mul_pos {a : Cost} (ha : 0 < a) : ⊤ * a = ⊤ := by
  induction a using WithTop.recTopCoe with
  | top => exact WithTop.top_mul_top
  | coe p => exact WithTop.top_mul (by exact_mod_cast ha.ne')

theorem cost_mul_ne_top {a b : Cost} (ha : a ≠ ⊤) (hb : b ≠ ⊤) : a * b ≠ ⊤ := by
  lift a to ℚ using ha
  lift b to ℚ using hb
  rw [← WithTop.coe_mul]
  exact WithTop.coe_ne_top

/-! ### Shortest-path theory for `bf` -/

theorem bf_succ_le {n : ℕ} (w : Fin n → Fin n → Cost) (k : ℕ) (i j : Fin n) :
    bf w (k+1) i j ≤ bf w k i j := min_le_left _ _

theorem bf_anti {n : ℕ} (w : Fin n → Fin n → Cost) {k l : ℕ} (h : k ≤ l)
    (i j : Fin n) : bf w l i j ≤ bf w k i j := by
  induction l with
  | zero => obtain rfl := Nat.le_zero.mp h; exact le_refl _
  | succ l ih =>
    rcases eq_or_lt_of_le h with rfl | hlt
    · exact le_refl _
    · exact le_trans (bf_succ_le w l i j) (ih (Nat.lt_succ_iff.mp hlt))

theorem bf_concat {n : ℕ} (w : Fin n → Fin n → Cost) (a b : ℕ) (i j k : Fin n) :
    bf w (a + b) i k ≤ bf w a i j + bf w b j k := by
  induction a generalizing i with
  | zero =>
    by_cases hij : i = j
    · subst hij
      have h0 : bf w 0 i i = 0 := by simp [bf]
      rw [h0, Nat.zero_add, zero_add]
    · have h0 : bf w 0 i j = ⊤ := by simp [bf, hij]
      rw [h0, WithTop.top_add]
      exact le_top
  | succ a ih =>
    have hrw : a + 1 + b = (a + b) + 1 := by omega
    rw [hrw]
    rcases min_cases (bf w a i j) (Finset.univ.inf fun m => w i m + bf w a m j) with
      ⟨hmin, _⟩ | ⟨hmin, _⟩
    · rw [show bf w (a+1) i j = min (bf w a i j)
          (Finset.univ.inf fun m => w i m + bf w a m j) from rfl, hmin]
      exact le_trans (bf_succ_le w (a+b) i k) (ih i)
    · rw [show bf w (a+1) i j = min (bf w a i j)
          (Finset.univ.inf fun m => w i m + bf w a m j) from rfl, hmin]
      obtain ⟨m₀, _, hm₀⟩ := Finset.exists_mem_eq_inf Finset.univ
        ⟨i, Finset.mem_univ i⟩ (fun m => w i m + bf w a m j)
      rw [hm₀]
      calc bf w ((a+b)+1) i k
          ≤ Finset.univ.inf (fun m => w i m + bf w (a+b) m k) := min_le_right _ _
        _ ≤ w i m₀ + bf w (a+b) m₀ k := Finset.inf_le (Finset.mem_univ m₀)
        _ ≤ w i m₀ + (bf w a m₀ j + bf w b j k) := add_le_add_left (ih m₀) _
        _ = (w i m₀ + bf w a m₀ j) + bf w b j k := (add_assoc _ _ _).symm

theorem walkCost_nonneg {n : ℕ} {w : Fin n → Fin n → Cost}
    (hw : ∀ i j, 0 ≤ w i j) :
    ∀ (l : List (Fin n)) (i j : Fin n), 0 ≤ walkCost w i l j := by
  intro l
  induction l with
  | nil => intro i j; by_cases hij : i = j <;> simp [walkCost, hij]
  | cons m l ih => intro i j; exact add_nonneg (hw i m) (ih m j)

theorem bf_exists_walk {n : ℕ} (w : Fin n → Fin n → Cost) :
    ∀ (k : ℕ) (i j : Fin n), ∃ l : List (Fin n),
      l.length ≤ k ∧ bf w k i j = walkCost w i l j := by
  intro k
  induction k with
  | zero => intro i j; exact ⟨[], le_refl 0, rfl⟩
  | succ k ih =>
    intro i j
    rcases min_cases (bf w k i j) (Finset.univ.inf fun m => w i m + bf w k m j) with
      ⟨hmin, _⟩ | ⟨hmin, _⟩
    · obtain ⟨l, hl, he⟩ := ih i j
      exact ⟨l, le_trans hl (Nat.le_succ k),
        by rw [show bf w (k+1) i j = min (bf w k i j)
            (Finset.univ.inf fun m => w i m + bf w k m j) from rfl, hmin, he]⟩
    · obtain ⟨m₀, _, hm₀⟩ := Finset.exists_mem_eq_inf Finset.univ
        ⟨i, Finset.mem_univ i⟩ (fun m => w i m + bf w k m j)
      obtain ⟨l, hl, he⟩ := ih m₀ j
      refine ⟨m₀ :: l, Nat.succ_le_succ hl, ?_⟩
      rw [show bf w (k+1) i j = min (bf w k i j)
          (Finset.univ.inf fun m => w i m + bf w k m j) from rfl, hmin, hm₀]
      show w i m₀ + bf w k m₀ j = walkCost w i (m₀ :: l) j
      rw [he]; rfl

theorem bf_le_walkCost {n : ℕ} (w : Fin n → Fin n → Cost) :
    ∀ (l : List (Fin n)) (k : ℕ) (i j : Fin n), l.length ≤ k →
      bf w k i j ≤ walkCost w i l j := by
  intro l
  induction l with
  | nil =>
    intro k i j _
    by_cases hij : i = j
    · subst hij
      have h0 : bf w 0 i i = 0 := by simp [bf]
      have hwc : walkCost w i ([] : List (Fin n)) i = 0 := by simp [walkCost]
      rw [hwc]
      exact le_trans (bf_anti w (Nat.zero_le k) i i) (le_of_eq h0)
    · have hwc : walkCost w i ([] : List (Fin n)) j = ⊤ := by simp [walkCost, hij]
      rw [hwc]; exact le_top
  | cons m l ih =>
    intro k i j hk
    cases k with
    | zero => simp at hk
    | succ k =>
      have hlk : l.length ≤ k := Nat.succ_le_succ_iff.mp hk
      calc bf w (k+1) i j
          ≤ Finset.univ.inf (fun m' => w i m' + bf w k m' j) := min_le_right _ _
        _ ≤ w i m + bf w k m j := Finset.inf_le (Finset.mem_univ m)
        _ ≤ w i m + walkCost w m l j := add_le_add_left (ih k m j hlk) _
        _ = walkCost w i (m :: l) j := rfl

theorem exists_dup_decomp {α : Type} [DecidableEq α] :
    ∀ l : List α, ¬ l.Nodup → ∃ (l₁ : List α) (a : α) (l₂ l₃ : List α),
      l = l₁ ++ a :: (l₂ ++ a :: l₃) := by
  intro l
  induction l with
  | nil => intro h; exact absurd List.nodup_nil h
  | cons x xs ih =>
    intro h
    by_cases hx : x ∈ xs
    · obtain ⟨s, t, rfl⟩ := List.append_of_mem hx
      exact ⟨[], x, s, t, by simp⟩
    · have hxs : ¬ xs.Nodup := by
        intro hnd
        exact h (List.nodup_cons.mpr ⟨hx, hnd⟩)
      obtain ⟨l₁, a, l₂, l₃, rfl⟩ := ih hxs
      exact ⟨x :: l₁, a, l₂, l₃, rfl⟩

theorem walkCost_append {n : ℕ} (w : Fin n → Fin n → Cost) :
    ∀ (l₁ : List (Fin n)) (i m j : Fin n) (l₂ : List (Fin n)),
      walkCost w i (l₁ ++ m :: l₂) j
        = walkCost w i (l₁ ++ [m]) m + walkCost w m l₂ j := by
  intro l₁
  induction l₁ with
  | nil =>
    intro i m j l₂
    show w i m + walkCost w m l₂ j
      = (w i m + walkCost w m ([] : List (Fin n)) m) + walkCost w m l₂ j
    rw [show walkCost w m ([] : List (Fin n)) m = 0 by simp [walkCost], add_zero]
  | cons a l₁ ih =>
    intro i m j l₂
    show w i a + walkCost w a (l₁ ++ m :: l₂) j
      = (w i a + walkCost w a (l₁ ++ [m]) m) + walkCost w m l₂ j
    rw [ih a m j l₂, add_assoc]

theorem walk_shorten {n : ℕ} {w : Fin n → Fin n → Cost}
    (hw : ∀ i j, 0 ≤ w i j) :
    ∀ (N : ℕ) (l : List (Fin n)), l.length ≤ N → ∀ (i j : Fin n),
      ∃ l' : List (Fin n), l'.length < n ∧
        walkCost w i l' j ≤ walkCost w i l j := by
  intro N
  induction N with
  | zero =>
    intro l hl i j
    obtain rfl : l = [] := List.length_eq_zero.mp (Nat.le_zero.mp hl)
    exact ⟨[], i.pos, le_refl _⟩
  | succ N ih =>
    intro l hl i j
    by_cases hnd : (i :: l).Nodup
    · refine ⟨l, ?_, le_refl _⟩
      have hcard : (i :: l).length ≤ Fintype.card (Fin n) :=
        List.Nodup.length_le_card hnd
      simpa using hcard
    · obtain ⟨l₁, a, l₂, l₃, hdec⟩ := exists_dup_decomp (i :: l) hnd
      cases l₁ with
      | nil =>
        simp only [List.nil_append] at hdec
        injection hdec with h1 h2
        subst h1
        subst h2
        have hlen : l₃.length ≤ N := by
          simp [List.length_append] at hl
          omega
        obtain ⟨l', hl', hle⟩ := ih l₃ hlen i j
        refine ⟨l', hl', ?_⟩
        calc walkCost w i l' j ≤ walkCost w i l₃ j := hle
          _ ≤ walkCost w i (l₂ ++ [i]) i + walkCost w i l₃ j :=
            le_add_of_nonneg_left (walkCost_nonneg hw _ _ _)
          _ = walkCost w i (l₂ ++ i :: l₃) j := (walkCost_append w l₂ i i j l₃).symm
      | cons x l₁ =>
        simp only [List.cons_append] at hdec
        injection hdec with h1 h2
        subst h1
        subst h2
        have hlen : (l₁ ++ a :: l₃).length ≤ N := by
          simp [List.length_append] at hl ⊢
          omega
        obtain ⟨l', hl', hle⟩ := ih (l₁ ++ a :: l₃) hlen i j
        refine ⟨l', hl', ?_⟩
        have e2 : walkCost w a (l₂ ++ a :: l₃) j
            = walkCost w a (l₂ ++ [a]) a + walkCost w a l₃ j :=
          walkCost_append w l₂ a a j l₃
        have e3 : walkCost w i (l₁ ++ a :: l₃) j
            = walkCost w i (l₁ ++ [a]) a + walkCost w a l₃ j :=
          walkCost_append w l₁ i a j l₃
        calc walkCost w i l' j ≤ walkCost w i (l₁ ++ a :: l₃) j := hle
          _ = walkCost w i (l₁ ++ [a]) a + walkCost w a l₃ j := e3
          _ ≤ walkCost w i (l₁ ++ [a]) a
              + (walkCost w a (l₂ ++ [a]) a + walkCost w a l₃ j) :=
            add_le_add_left (le_add_of_nonneg_left (walkCost_nonneg hw _ _ _)) _
          _ = walkCost w i (l₁ ++ [a]) a + walkCost w a (l₂ ++ a :: l₃) j := by
            rw [e2]
          _ = walkCost w i (l₁ ++ a :: (l₂ ++ a :: l₃)) j :=
            (walkCost_append w l₁ i a j _).symm

theorem shortest_path_le_bf {n : ℕ} {w : Fin n → Fin n → Cost}
    (hw : ∀ i j, 0 ≤ w i j) (k : ℕ) (i j : Fin n) :
    shortest_path w i j ≤ bf w k i j := by
  obtain ⟨l, _, he⟩ := bf_exists_walk w k i j
  obtain ⟨l', hl', hle⟩ := walk_shorten hw l.length l (le_refl _) i j
  calc shortest_path w i j = bf w n i j := rfl
    _ ≤ walkCost w i l' j := bf_le_walkCost w l' n i j (Nat.le_of_lt hl')
    _ ≤ walkCost w i l j := hle
    _ = bf w k i j := he.symm

/-- The shortest-path distance table of any non-negative weight matrix
satisfies the triangle inequality. -/
theorem shortest_path_triangle {n : ℕ} {w : Fin n → Fin n → Cost}
    (hw : ∀ i j, 0 ≤ w i j) (i j k : Fin n) :
    shortest_path w i k ≤ shortest_path w i j + shortest_path w j k :=
  le_trans (shortest_path_le_bf hw (n + n) i k) (bf_concat w n n i j k)

/-- If every edge into or out of `p` has weight `⊤`, then every walk that
visits `p` and contains at least one edge has cost `⊤`. -/
theorem walkCost_through_top {n : ℕ} {w : Fin n → Fin n → Cost} {p : Fin n}
    (hp : ∀ q, w p q = ⊤ ∧ w q p = ⊤) :
    ∀ (l : List (Fin n)) (i j : Fin n), (p = i ∨ p = j ∨ p ∈ l) →
      (i ≠ j ∨ l ≠ []) → walkCost w i l j = ⊤ := by
  intro l
  induction l with
  | nil =>
    intro i j hvisit hnt
    have hij : i ≠ j := by
      rcases hnt with h | h
      · exact h
      · exact absurd rfl h
    simp [walkCost, hij]
  | cons m l ih =>
    intro i j hvisit _
    show w i m + walkCost w m l j = ⊤
    by_cases hpi : p = i
    · subst hpi
      rw [(hp m).1, WithTop.top_add]
    · by_cases hpm : p = m
      · subst hpm
        rw [(hp i).2, WithTop.top_add]
      · have hv : p = j ∨ p ∈ l := by
          rcases hvisit with h | h | h
          · exact absurd h hpi
          · exact Or.inl h
          · rcases List.mem_cons.mp h with h | h
            · exact absurd h hpm
            · exact Or.inr h
        have hnt' : m ≠ j ∨ l ≠ [] := by
          by_cases hl : l = []
          · subst hl
            rcases hv with h | h
            · exact Or.inl (fun hmj => hpm (h.trans hmj.symm))
            · simp at h
          · exact Or.inr hl
        rw [ih m j (Or.inr hv) hnt', WithTop.add_top]

/-! ### Characterisations of index selection and group membership -/

theorem mem_selectedIdxs {xs sel : List String} {k : ℕ} :
    k ∈ selectedIdxs xs sel ↔ ∃ x, xs[k]? = some x ∧ x ∈ sel := by
  unfold selectedIdxs
  simp only [List.mem_map, List.mem_filter]
  constructor
  · rintro ⟨⟨k', x⟩, ⟨hmem, hsel⟩, rfl⟩
    refine ⟨x, List.mk_mem_enum_iff_getElem?.mp hmem, ?_⟩
    simpa using hsel
  · rintro ⟨x, hget, hsel⟩
    exact ⟨(k, x), ⟨List.mk_mem_enum_iff_getElem?.mpr hget, by simpa using hsel⟩, rfl⟩

theorem memberPoints_iff {r : GraphRoom} {idxs : List ℕ} {p : Fin r.n} :
    r.memberPoints idxs p = true ↔
      ∃ (k : ℕ) (e : String × (Fin r.n → Bool)),
        r.excludables[k]? = some e ∧ k ∈ idxs ∧ e.2 p = true := by
  unfold GraphRoom.memberPoints
  rw [List.any_eq_true]
  constructor
  · rintro ⟨⟨k, e⟩, hmem, hp⟩
    rw [List.mem_filter] at hmem
    exact ⟨k, e, List.mk_mem_enum_iff_getElem?.mp hmem.1, by simpa using hmem.2, hp⟩
  · rintro ⟨k, e, hget, hidx, hp⟩
    exact ⟨(k, e), List.mem_filter.mpr
      ⟨List.mk_mem_enum_iff_getElem?.mpr hget, by simpa using hidx⟩, hp⟩

/-- Membership via name selection: `p` is a member point of the groups
selected by the name list `sel` iff some compiled excludable entry has its
name in `sel` and contains `p`. -/
theorem memberPoints_selected_iff {r : GraphRoom} {sel : List String} {p : Fin r.n} :
    r.memberPoints (selectedIdxs r.excludableNames sel) p = true ↔
      ∃ (k : ℕ) (e : String × (Fin r.n → Bool)),
        r.excludables[k]? = some e ∧ e.1 ∈ sel ∧ e.2 p = true := by
  rw [memberPoints_iff]
  constructor
  · rintro ⟨k, e, hget, hmem, hp⟩
    rw [mem_selectedIdxs] at hmem
    obtain ⟨x, hx, hxs⟩ := hmem
    have : x = e.1 := by
      unfold GraphRoom.excludableNames at hx
      rw [List.getElem?_map, hget] at hx
      simpa using hx.symm
    exact ⟨k, e, hget, this ▸ hxs, hp⟩
  · rintro ⟨k, e, hget, hsel, hp⟩
    refine ⟨k, e, hget, mem_selectedIdxs.mpr ⟨e.1, ?_, hsel⟩, hp⟩
    unfold GraphRoom.excludableNames
    rw [List.getElem?_map, hget]
    rfl

theorem memberPoints_ne_nil {r : GraphRoom} {idxs : List ℕ} {p : Fin r.n}
    (h : r.memberPoints idxs p = true) : idxs.isEmpty = false := by
  obtain ⟨k, e, _, hidx, _⟩ := memberPoints_iff.mp h
  cases idxs with
  | nil => exact absurd hidx (List.not_mem_nil k)
  | cons a l => rfl

/-! ### Pointwise behaviour of the factor pipeline -/

theorem factors1_le_factors2 (r : GraphRoom) (anp : Bool) (avoidI inclI : List ℕ)
    (p q : Fin r.n) :
    r.factors1 anp inclI p q ≤ r.factors2 anp avoidI inclI p q := by
  unfold GraphRoom.factors2
  by_cases he : avoidI.isEmpty
  · rw [if_pos he]
  · rw [if_neg he]
    unfold maxCols maxRows
    by_cases hq : r.memberPoints avoidI q = true <;>
      by_cases hp : r.memberPoints avoidI p = true <;>
        simp only [hq, hp, if_true, if_false]
    · exact le_trans (le_max_left _ _) (le_max_left _ _)
    · exact le_max_left _ _
    · exact le_max_left _ _
    · exact le_refl _

theorem factors2_ge_1000 {r : GraphRoom} {anp : Bool} {avoidI inclI : List ℕ}
    {p q : Fin r.n}
    (hm : r.memberPoints avoidI p = true ∨ r.memberPoints avoidI q = true) :
    1000 ≤ r.factors2 anp avoidI inclI p q := by
  have hne : avoidI.isEmpty = false := by
    rcases hm with h | h <;> exact memberPoints_ne_nil h
  unfold GraphRoom.factors2
  rw [hne]
  unfold maxCols maxRows
  simp only [Bool.false_eq_true, if_false]
  by_cases hq : r.memberPoints avoidI q = true
  · simp only [hq, if_true]
    exact le_max_right _ _
  · have hp : r.memberPoints avoidI p = true := by
      rcases hm with h | h
      · exact h
      · exact absurd h hq
    simp only [hq, hp, if_true, if_false]
    exact le_max_right _ _

theorem factors3_include_one {r : GraphRoom} {anp : Bool} {avoidI inclI : List ℕ}
    {p : Fin r.n} (hm : r.memberPoints inclI p = true) (q : Fin r.n) :
    r.factors3 anp avoidI inclI p q = 1 ∧ r.factors3 anp avoidI inclI q p = 1 := by
  have hne : inclI.isEmpty = false := memberPoints_ne_nil hm
  unfold GraphRoom.factors3
  rw [hne]
  unfold setCols setRows
  simp only [Bool.false_eq_true, if_false]
  constructor
  · by_cases hq : r.memberPoints inclI q = true <;> simp [hq, hm]
  · simp [hm]

theorem factors3_eq_factors2 {r : GraphRoom} {anp : Bool} {avoidI inclI : List ℕ}
    {p q : Fin r.n} (hp : r.memberPoints inclI p = false)
    (hq : r.memberPoints inclI q = false) :
    r.factors3 anp avoidI inclI p q = r.factors2 anp avoidI inclI p q := by
  unfold GraphRoom.factors3
  by_cases he : inclI.isEmpty
  · rw [if_pos he]
  · rw [if_neg he]
    unfold setCols setRows
    simp [hp, hq]

theorem nonpublic_points_spec {r : GraphRoom}
    (hg : r.excludableNames.contains ":nonpublic" = true) :
    r.nonpublicRow = some r.nonpublic_points := by
  have hmem : ":nonpublic" ∈ r.excludableNames := by simpa using hg
  obtain ⟨e, he, hone⟩ : ∃ e ∈ r.excludables, e.1 = ":nonpublic" := by
    unfold GraphRoom.excludableNames at hmem
    obtain ⟨e, he, h⟩ := List.mem_map.mp hmem
    exact ⟨e, he, h⟩
  have hsome : r.nonpublicRow.isSome := by
    unfold GraphRoom.nonpublicRow
    simp only [Option.isSome_map']
    rw [List.find?_isSome]
    exact ⟨e, he, by simpa using hone⟩
  cases hrow : r.nonpublicRow with
  | none => rw [hrow] at hsome; simp at hsome
  | some row =>
    unfold GraphRoom.nonpublic_points
    rw [hrow]

theorem factors1_nonpublic {r : GraphRoom} {anp : Bool} {inclI : List ℕ}
    (hg : r.excludableNames.contains ":nonpublic" = true)
    {p : Fin r.n} (hp : r.nonpublic_points p = true) (q : Fin r.n) :
    r.factors1 anp inclI p q = (if anp then 1000 else ⊤)
      ∧ r.factors1 anp inclI q p = (if anp then 1000 else ⊤) := by
  have hguard : r.nonpublicGuard inclI = true := by
    unfold GraphRoom.nonpublicGuard strInIntTuple
    rw [Bool.not_false, Bool.and_true]
    exact hg
  unfold GraphRoom.factors1
  rw [hguard, nonpublic_points_spec hg]
  unfold setCols setRows
  constructor
  · by_cases hq : r.nonpublic_points q = true <;> simp [hq, hp]
  · simp [hp]

theorem factors2_of_ge_1000 {r : GraphRoom} {anp : Bool} {avoidI inclI : List ℕ}
    {p q : Fin r.n} (h : 1000 ≤ r.factors1 anp inclI p q) :
    r.factors2 anp avoidI inclI p q = r.factors1 anp inclI p q := by
  unfold GraphRoom.factors2
  by_cases he : avoidI.isEmpty
  · rw [if_pos he]
  · rw [if_neg he]
    unfold maxCols maxRows
    by_cases hq : r.memberPoints avoidI q = true <;>
      by_cases hp : r.memberPoints avoidI p = true <;>
        simp [hq, hp, max_eq_left h]

theorem factors3_nonpublic {r : GraphRoom} {anp : Bool} {avoidI inclI : List ℕ}
    (hg : r.excludableNames.contains ":nonpublic" = true)
    {p : Fin r.n} (hp : r.nonpublic_points p = true) {q : Fin r.n}
    (hip : r.memberPoints inclI p = false) (hiq : r.memberPoints inclI q = false) :
    r.factors3 anp avoidI inclI p q = (if anp then 1000 else ⊤)
      ∧ r.factors3 anp avoidI inclI q p = (if anp then 1000 else ⊤) := by
  have h1 := @factors1_nonpublic r anp inclI hg p hp q
  have hv : (1000 : Cost) ≤ (if anp then 1000 else ⊤) := by
    cases anp
    · simp
    · simp
  constructor
  · rw [factors3_eq_factors2 hip hiq,
      factors2_of_ge_1000 (by rw [h1.1]; exact hv), h1.1]
  · rw [factors3_eq_factors2 hiq hip,
      factors2_of_ge_1000 (by rw [h1.2]; exact hv), h1.2]

theorem factors1_nonneg (r : GraphRoom) (anp : Bool) (inclI : List ℕ)
    (p q : Fin r.n) : 0 ≤ r.factors1 anp inclI p q := by
  simp only [GraphRoom.factors1]
  cases hrow : r.nonpublicRow with
  | some row =>
    by_cases hg : r.nonpublicGuard inclI = true <;> cases anp <;>
      simp [hg, setCols, setRows] <;>
        first
          | decide
          | (split_ifs <;> decide)
  | none =>
    by_cases hg : r.nonpublicGuard inclI = true <;> simp [hg, setCols, setRows]

theorem factors2_nonneg (r : GraphRoom) (anp : Bool) (avoidI inclI : List ℕ)
    (p q : Fin r.n) : 0 ≤ r.factors2 anp avoidI inclI p q := by
  have h1 := factors1_nonneg r anp inclI p q
  unfold GraphRoom.factors2
  by_cases he : avoidI.isEmpty
  · rw [if_pos he]; exact h1
  · rw [if_neg he]
    unfold maxCols maxRows
    split_ifs <;>
      first
        | exact h1
        | exact le_trans (by decide : (0:Cost) ≤ 1000) (le_max_right _ _)

theorem factors3_nonneg (r : GraphRoom) (anp : Bool) (avoidI inclI : List ℕ)
    (p q : Fin r.n) : 0 ≤ r.factors3 anp avoidI inclI p q := by
  have h2 := factors2_nonneg r anp avoidI inclI p q
  unfold GraphRoom.factors3
  by_cases he : inclI.isEmpty
  · rw [if_pos he]; exact h2
  · rw [if_neg he]
    unfold setCols setRows
    split_ifs <;> first | exact h2 | decide

theorem ctypeFactor_pos (ctypes : List ℕ) (ℓ : ℕ) : 0 < ctypeFactor ctypes ℓ := by
  unfold ctypeFactor; split_ifs <;> decide

theorem ctypeFactor_ne_top (ctypes : List ℕ) (ℓ : ℕ) : ctypeFactor ctypes ℓ ≠ ⊤ := by
  unfold ctypeFactor; split_ifs <;> decide

theorem collapsed_nonneg {r : GraphRoom} {cI : List ℕ}
    (hd : ∀ (ℓ : Fin r.layers.length) (i j : Fin r.n), 0 ≤ (r.layers.get ℓ).2 i j)
    (i j : Fin r.n) : 0 ≤ r.collapsed cI i j :=
  Finset.le_inf fun ℓ _ =>
    cost_mul_nonneg (hd ℓ i j) (le_of_lt (ctypeFactor_pos cI ℓ.val))

theorem collapsed_pos {r : GraphRoom} {cI : List ℕ}
    (hd : ∀ (ℓ : Fin r.layers.length) (i j : Fin r.n), 0 < (r.layers.get ℓ).2 i j)
    (i j : Fin r.n) : 0 < r.collapsed cI i j := by
  unfold GraphRoom.collapsed
  rw [Finset.lt_inf_iff (by decide : (0:Cost) < ⊤)]
  intro ℓ _
  exact cost_mul_pos (hd ℓ i j) (ctypeFactor_pos cI ℓ.val)

theorem weighted_nonneg {r : GraphRoom} {cI : List ℕ} {anp : Bool}
    {aI iI : List ℕ}
    (hd : ∀ (ℓ : Fin r.layers.length) (i j : Fin r.n), 0 ≤ (r.layers.get ℓ).2 i j)
    (i j : Fin r.n) : 0 ≤ r.weighted cI anp aI iI i j :=
  cost_mul_nonneg (collapsed_nonneg hd i j) (factors3_nonneg r anp aI iI i j)

/-- Soft exclusion: the collapsed matrix has an `inf` entry exactly where
every ctype layer has an `inf` entry — scaling by the 1000 penalty factor
never removes an edge. -/
theorem collapsed_eq_top_iff {r : GraphRoom} {cI : List ℕ} {i j : Fin r.n} :
    r.collapsed cI i j = ⊤ ↔
      ∀ ℓ : Fin r.layers.length, (r.layers.get ℓ).2 i j = ⊤ := by
  unfold GraphRoom.collapsed
  rw [Finset.inf_eq_top_iff]
  constructor
  · intro h ℓ
    by_contra hne
    exact cost_mul_ne_top hne (ctypeFactor_ne_top cI ℓ.val) (h ℓ (Finset.mem_univ ℓ))
  · intro h ℓ _
    rw [h ℓ]
    exact cost_top_mul_pos (ctypeFactor_pos cI ℓ.val)

theorem selectedIdxs_mono {xs sel sel' : List String}
    (hsub : ∀ x, x ∈ sel → x ∈ sel') :
    ∀ k ∈ selectedIdxs xs sel, k ∈ selectedIdxs xs sel' := by
  intro k hk
  rw [mem_selectedIdxs] at hk ⊢
  obtain ⟨x, h1, h2⟩ := hk
  exact ⟨x, h1, hsub x h2⟩

theorem memberPoints_mono {r : GraphRoom} {idxs idxs' : List ℕ}
    (hsub : ∀ k, k ∈ idxs → k ∈ idxs') {p : Fin r.n}
    (h : r.memberPoints idxs p = true) : r.memberPoints idxs' p = true := by
  rw [memberPoints_iff] at h ⊢
  obtain ⟨k, e, h1, h2, h3⟩ := h
  exact ⟨k, e, h1, hsub k h2, h3⟩

theorem memberPoints_of_isEmpty {r : GraphRoom} {idxs : List ℕ} {p : Fin r.n}
    (he : idxs.isEmpty = true) : r.memberPoints idxs p = false := by
  cases h : r.memberPoints idxs p with
  | false => rfl
  | true =>
    have := memberPoints_ne_nil h
    rw [he] at this
    cases this

theorem memberPoints_cons_split {r : GraphRoom} {g : String}
    {avoid incl : List String} (hg : g ∈ incl) {p : Fin r.n}
    (h : r.memberPoints (selectedIdxs r.excludableNames (g :: avoid)) p = true) :
    r.memberPoints (selectedIdxs r.excludableNames avoid) p = true ∨
      r.memberPoints (selectedIdxs r.excludableNames incl) p = true := by
  rw [memberPoints_selected_iff] at h
  obtain ⟨k, e, h1, h2, h3⟩ := h
  rcases List.mem_cons.mp h2 with h2 | h2
  · exact Or.inr (memberPoints_selected_iff.mpr ⟨k, e, h1, h2 ▸ hg, h3⟩)
  · exact Or.inl (memberPoints_selected_iff.mpr ⟨k, e, h1, h2, h3⟩)

theorem selectedIdxs_cons_ne_nil {xs : List String} {g : String} {sel : List String}
    (h : (selectedIdxs xs sel).isEmpty = false) :
    (selectedIdxs xs (g :: sel)).isEmpty = false := by
  cases hne : selectedIdxs xs sel with
  | nil => rw [hne] at h; cases h
  | cons k l =>
    have hk : k ∈ selectedIdxs xs sel := by rw [hne]; exact List.mem_cons_self k l
    have hk' : k ∈ selectedIdxs xs (g :: sel) :=
      selectedIdxs_mono (fun x hx => List.mem_cons_of_mem g hx) k hk
    cases hcons : selectedIdxs xs (g :: sel) with
    | nil => rw [hcons] at hk'; exact absurd hk' (List.not_mem_nil k)
    | cons a l2 => rfl

/-- Adding a group `g` that is also in `include` to the avoid set leaves
the final factor matrix unchanged. -/
theorem factors3_avoid_include_invariant (r : GraphRoom) (anp : Bool)
    (avoid incl : List String) (g : String) (hg : g ∈ incl) :
    r.factors3 anp (selectedIdxs r.excludableNames (g :: avoid))
        (selectedIdxs r.excludableNames incl)
      = r.factors3 anp (selectedIdxs r.excludableNames avoid)
        (selectedIdxs r.excludableNames incl) := by
  funext p q
  by_cases hip : r.memberPoints (selectedIdxs r.excludableNames incl) p = true
  · rw [(@factors3_include_one r anp (selectedIdxs r.excludableNames (g :: avoid))
        (selectedIdxs r.excludableNames incl) p hip q).1,
      (@factors3_include_one r anp (selectedIdxs r.excludableNames avoid)
        (selectedIdxs r.excludableNames incl) p hip q).1]
  · by_cases hiq : r.memberPoints (selectedIdxs r.excludableNames incl) q = true
    · rw [(@factors3_include_one r anp (selectedIdxs r.excludableNames (g :: avoid))
          (selectedIdxs r.excludableNames incl) q hiq p).2,
        (@factors3_include_one r anp (selectedIdxs r.excludableNames avoid)
          (selectedIdxs r.excludableNames incl) q hiq p).2]
    · have hip' : r.memberPoints (selectedIdxs r.excludableNames incl) p = false := by
        simpa using hip
      have hiq' : r.memberPoints (selectedIdxs r.excludableNames incl) q = false := by
        simpa using hiq
      rw [factors3_eq_factors2 hip' hiq', factors3_eq_factors2 hip' hiq']
      have hmem : ∀ x : Fin r.n,
          r.memberPoints (selectedIdxs r.excludableNames incl) x = false →
          r.memberPoints (selectedIdxs r.excludableNames (g :: avoid)) x
            = r.memberPoints (selectedIdxs r.excludableNames avoid) x := by
        intro x hx
        cases hax' : r.memberPoints (selectedIdxs r.excludableNames (g :: avoid)) x with
        | true =>
          rcases memberPoints_cons_split hg hax' with h | h
          · exact h.symm
          · rw [hx] at h; cases h
        | false =>
          cases hax : r.memberPoints (selectedIdxs r.excludableNames avoid) x with
          | false => rfl
          | true =>
            have h2 : r.memberPoints
                (selectedIdxs r.excludableNames (g :: avoid)) x = true :=
              memberPoints_mono
                (selectedIdxs_mono (fun y hy => List.mem_cons_of_mem g hy)) hax
            rw [hax'] at h2
            cases h2
      unfold GraphRoom.factors2
      by_cases hae : (selectedIdxs r.excludableNames avoid).isEmpty
      · have hfp : r.memberPoints (selectedIdxs r.excludableNames (g :: avoid)) p
            = false := by
          rw [hmem p hip']
          exact memberPoints_of_isEmpty hae
        have hfq : r.memberPoints (selectedIdxs r.excludableNames (g :: avoid)) q
            = false := by
          rw [hmem q hiq']
          exact memberPoints_of_isEmpty hae
        rw [if_pos hae]
        by_cases hae' : (selectedIdxs r.excludableNames (g :: avoid)).isEmpty
        · rw [if_pos hae']
        · rw [if_neg hae']
          unfold maxCols maxRows
          simp [hfp, hfq]
      · have hae2 : (selectedIdxs r.excludableNames avoid).isEmpty = false := by
          simpa using hae
        have hae' : (selectedIdxs r.excludableNames (g :: avoid)).isEmpty = false :=
          selectedIdxs_cons_ne_nil hae2
        rw [if_neg (by simp [hae']), if_neg hae]
        unfold maxCols maxRows
        rw [hmem p hip', hmem q hiq']

/-- Adding `g ∈ include` to `avoid` leaves the computed router unchanged. -/
theorem router_avoid_include_invariant (r : GraphRoom) (cI : List ℕ) (anp : Bool)
    (avoid incl : List String) (g : String) (hg : g ∈ incl) :
    r._build_router cI anp (selectedIdxs r.excludableNames (g :: avoid))
        (selectedIdxs r.excludableNames incl)
      = r._build_router cI anp (selectedIdxs r.excludableNames avoid)
        (selectedIdxs r.excludableNames incl) := by
  unfold GraphRoom._build_router GraphRoom.weighted
  rw [factors3_avoid_include_invariant r anp avoid incl g hg]

/-! ### Decimal-string lemmas for the cache key -/

theorem digitVal_digitChar {m : ℕ} (h : m < 10) :
    digitVal (Nat.digitChar m) = m := by
  have : ∀ x : Fin 10, digitVal (Nat.digitChar x.val) = x.val := by decide
  exact this ⟨m, h⟩

theorem digitChar_isDigit {m : ℕ} (h : m < 10) :
    (Nat.digitChar m).isDigit = true := by
  have : ∀ x : Fin 10, (Nat.digitChar x.val).isDigit = true := by decide
  exact this ⟨m, h⟩

theorem listVal_snoc (l : List Char) (c : Char) :
    listVal (l ++ [c]) = 10 * listVal l + digitVal c := by
  unfold listVal
  rw [List.foldl_append]
  rfl

theorem toDigitsCore_eq_digitsBEAux :
    ∀ (fuel n : ℕ) (ds : List Char), n < 10 ^ fuel →
      Nat.toDigitsCore 10 fuel n ds = digitsBEAux fuel n ++ ds := by
  intro fuel
  induction fuel with
  | zero => intro n ds _; rfl
  | succ fuel ih =>
    intro n ds hn
    show (if n / 10 = 0 then Nat.digitChar (n % 10) :: ds
        else Nat.toDigitsCore 10 fuel (n / 10) (Nat.digitChar (n % 10) :: ds))
      = digitsBEAux (fuel+1) n ++ ds
    unfold digitsBEAux
    by_cases h : n / 10 = 0
    · rw [if_pos h, if_pos h]
      rfl
    · rw [if_neg h, if_neg h]
      have hdiv : n / 10 < 10 ^ fuel := by
        rw [Nat.div_lt_iff_lt_mul (by norm_num)]
        calc n < 10 ^ (fuel + 1) := hn
          _ = 10 ^ fuel * 10 := by ring
      rw [ih (n / 10) (Nat.digitChar (n % 10) :: ds) hdiv, List.append_assoc]
      rfl

theorem digitsBEAux_val :
    ∀ (fuel n : ℕ), n < 10 ^ fuel → listVal (digitsBEAux fuel n) = n := by
  intro fuel
  induction fuel with
  | zero =>
    intro n hn
    obtain rfl : n = 0 := Nat.lt_one_iff.mp (by simpa using hn)
    rfl
  | succ fuel ih =>
    intro n hn
    unfold digitsBEAux
    by_cases h : n / 10 = 0
    · rw [if_pos h]
      have hlt : n < 10 := (Nat.div_eq_zero_iff (by norm_num)).mp h
      show listVal ([] ++ [Nat.digitChar (n % 10)]) = n
      rw [listVal_snoc]
      show 10 * listVal [] + digitVal (Nat.digitChar (n % 10)) = n
      rw [digitVal_digitChar (Nat.mod_lt n (by norm_num))]
      show 10 * 0 + n % 10 = n
      rw [Nat.mod_eq_of_lt hlt]
      omega
    · rw [if_neg h]
      have hdiv : n / 10 < 10 ^ fuel := by
        rw [Nat.div_lt_iff_lt_mul (by norm_num)]
        calc n < 10 ^ (fuel + 1) := hn
          _ = 10 ^ fuel * 10 := by ring
      rw [listVal_snoc, ih (n / 10) hdiv,
        digitVal_digitChar (Nat.mod_lt n (by norm_num))]
      exact Nat.div_add_mod n 10

theorem digitsBEAux_isDigit :
    ∀ (fuel n : ℕ) (c : Char), c ∈ digitsBEAux fuel n → c.isDigit = true := by
  intro fuel
  induction fuel with
  | zero => intro n c hc; cases hc
  | succ fuel ih =>
    intro n c hc
    unfold digitsBEAux at hc
    by_cases h : n / 10 = 0
    · rw [if_pos h] at hc
      rcases List.mem_singleton.mp hc with rfl
      exact digitChar_isDigit (Nat.mod_lt n (by norm_num))
    · rw [if_neg h] at hc
      rcases List.mem_append.mp hc with hc | hc
      · exact ih (n / 10) c hc
      · rcases List.mem_singleton.mp hc with rfl
        exact digitChar_isDigit (Nat.mod_lt n (by norm_num))

theorem nat_lt_ten_pow_succ (n : ℕ) : n < 10 ^ (n + 1) :=
  lt_of_lt_of_le (Nat.lt_two_pow n)
    (le_trans (Nat.pow_le_pow_left (by norm_num) n)
      (Nat.pow_le_pow_right (by norm_num) (Nat.le_succ n)))

theorem repr_data (n : ℕ) : (Nat.repr n).data = digitsBEAux (n + 1) n := by
  show (Nat.toDigits 10 n).asString.data = digitsBEAux (n + 1) n
  show Nat.toDigitsCore 10 (n + 1) n [] = digitsBEAux (n + 1) n
  rw [toDigitsCore_eq_digitsBEAux (n + 1) n [] (nat_lt_ten_pow_succ n),
    List.append_nil]

theorem repr_data_isDigit (n : ℕ) :
    ∀ c ∈ (Nat.repr n).data, c.isDigit = true := by
  rw [repr_data]
  exact digitsBEAux_isDigit (n + 1) n

theorem repr_data_inj {m₁ m₂ : ℕ}
    (h : (Nat.repr m₁).data = (Nat.repr m₂).data) : m₁ = m₂ := by
  rw [repr_data, repr_data] at h
  calc m₁ = listVal (digitsBEAux (m₁ + 1) m₁) :=
        (digitsBEAux_val (m₁ + 1) m₁ (nat_lt_ten_pow_succ m₁)).symm
    _ = listVal (digitsBEAux (m₂ + 1) m₂) := by rw [h]
    _ = m₂ := digitsBEAux_val (m₂ + 1) m₂ (nat_lt_ten_pow_succ m₂)

theorem digit_prefix_inj :
    ∀ (l₁ l₂ r₁ r₂ : List Char), (∀ c ∈ l₁, c.isDigit = true) →
      (∀ c ∈ l₂, c.isDigit = true) →
      l₁ ++ '_' :: r₁ = l₂ ++ '_' :: r₂ → l₁ = l₂ ∧ r₁ = r₂ := by
  intro l₁
  induction l₁ with
  | nil =>
    intro l₂ r₁ r₂ _ h₂ h
    cases l₂ with
    | nil =>
      simp only [List.nil_append] at h
      exact ⟨rfl, (List.cons.injEq _ _ _ _ ▸ h).2⟩
    | cons d l₂ =>
      simp only [List.nil_append, List.cons_append] at h
      have hd : d = '_' := ((List.cons.injEq _ _ _ _ ▸ h).1).symm
      have : ('_').isDigit = true := hd ▸ h₂ d (List.mem_cons_self d l₂)
      cases this
  | cons c l₁ ih =>
    intro l₂ r₁ r₂ h₁ h₂ h
    cases l₂ with
    | nil =>
      simp only [List.nil_append, List.cons_append] at h
      have hc : c = '_' := (List.cons.injEq _ _ _ _ ▸ h).1
      have : ('_').isDigit = true := hc ▸ h₁ c (List.mem_cons_self c l₁)
      cases this
    | cons d l₂ =>
      simp only [List.cons_append] at h
      have hcd : c = d := (List.cons.injEq _ _ _ _ ▸ h).1
      have htail : l₁ ++ '_' :: r₁ = l₂ ++ '_' :: r₂ :=
        (List.cons.injEq _ _ _ _ ▸ h).2
      obtain ⟨he, hr⟩ := ih l₂ r₁ r₂
        (fun x hx => h₁ x (List.mem_cons_of_mem c hx))
        (fun x hx => h₂ x (List.mem_cons_of_mem d hx)) htail
      exact ⟨by rw [hcd, he], hr⟩

/-- Distinct graph versions produce distinct cache keys, whatever the other
key components are. -/
theorem cache_key_mtime_inj {m₁ m₂ ri₁ ri₂ : ℕ} {c₁ c₂ : List ℕ}
    {a₁ a₂ : Bool} {av₁ av₂ ic₁ ic₂ : List ℕ}
    (h : cache_key m₁ ri₁ c₁ a₁ av₁ ic₁ = cache_key m₂ ri₂ c₂ a₂ av₂ ic₂) :
    m₁ = m₂ := by
  have hd := congrArg String.data h
  simp only [cache_key, String.data_append, List.append_assoc] at hd
  have hd2 := List.append_cancel_left hd
  simp only [List.cons_append, List.nil_append] at hd2
  exact repr_data_inj (digit_prefix_inj _ _ _ _ (repr_data_isDigit m₁)
    (repr_data_isDigit m₂) hd2).1

theorem RouterCache.get_nil (k : String) : RouterCache.get [] k = none := rfl

theorem RouterCache.get_cons_self (c : RouterCache) (k : String) (v : RoomRouter) :
    RouterCache.get ((k, v) :: c) k = some v := by
  unfold RouterCache.get
  rw [List.find?_cons_of_pos _ (by simp)]
  rfl

theorem RouterCache.get_cons_ne (c : RouterCache) {k k' : String}
    (h : k ≠ k') (v : RoomRouter) :
    RouterCache.get ((k, v) :: c) k' = RouterCache.get c k' := by
  unfold RouterCache.get
  rw [List.find?_cons_of_neg _ (by simpa using h)]

/-- Memoization: a repeated `build_router` call with the same arguments on
the cache state left by the first call returns the first call's router and
does not recompute. -/
theorem build_router_memo (r : GraphRoom) (mtime : ℕ) (allowed : List String)
    (anp : Bool) (avoid incl : List String) (cache : RouterCache) :
    (r.build_router mtime allowed anp avoid incl
        (r.build_router mtime allowed anp avoid incl cache).2.1).1
      = (r.build_router mtime allowed anp avoid incl cache).1
    ∧ (r.build_router mtime allowed anp avoid incl
        (r.build_router mtime allowed anp avoid incl cache).2.1).2.2 = false := by
  unfold GraphRoom.build_router
  cases hget : RouterCache.get cache (cache_key mtime r.i
      (selectedIdxs r.ctypes allowed) anp (selectedIdxs r.excludableNames avoid)
      (selectedIdxs r.excludableNames incl)) with
  | some rr => simp [hget]
  | none => simp [hget, RouterCache.get_cons_self]

/-- A graph rebuild (new `mtime`) never hits an entry stored under the old
`mtime`: starting from the empty cache, any second call under a different
version recomputes. -/
theorem build_router_new_mtime_recomputes (r : GraphRoom) {m₁ m₂ : ℕ}
    (hm : m₁ ≠ m₂) (al₁ al₂ : List String) (anp₁ anp₂ : Bool)
    (av₁ av₂ ic₁ ic₂ : List String) :
    (r.build_router m₂ al₂ anp₂ av₂ ic₂
        (r.build_router m₁ al₁ anp₁ av₁ ic₁ []).2.1).2.2 = true := by
  unfold GraphRoom.build_router
  rw [RouterCache.get_nil]
  have hkeys : cache_key m₁ r.i (selectedIdxs r.ctypes al₁) anp₁
      (selectedIdxs r.excludableNames av₁) (selectedIdxs r.excludableNames ic₁)
    ≠ cache_key m₂ r.i (selectedIdxs r.ctypes al₂) anp₂
      (selectedIdxs r.excludableNames av₂) (selectedIdxs r.excludableNames ic₂) :=
    fun hcontra => hm (cache_key_mtime_inj hcontra)
  simp only []
  rw [RouterCache.get_cons_ne _ hkeys, RouterCache.get_nil]

/-- The class-level cache is shared between instances: when two rooms
produce the same cache key, a `build_router` call on the second room served
from the cache state of the first room's call returns the first room's
router without recomputation. -/
theorem build_router_cross_instance (r₁ r₂ : GraphRoom) (mtime : ℕ)
    (allowed : List String) (anp : Bool) (avoid incl : List String)
    (hkey : cache_key mtime r₂.i (selectedIdxs r₂.ctypes allowed) anp
        (selectedIdxs r₂.excludableNames avoid)
        (selectedIdxs r₂.excludableNames incl)
      = cache_key mtime r₁.i (selectedIdxs r₁.ctypes allowed) anp
        (selectedIdxs r₁.excludableNames avoid)
        (selectedIdxs r₁.excludableNames incl)) :
    (r₂.build_router mtime allowed anp avoid incl
        (r₁.build_router mtime allowed anp avoid incl []).2.1).1
      = (r₁.build_router mtime allowed anp avoid incl []).1
    ∧ (r₂.build_router mtime allowed anp avoid incl
        (r₁.build_router mtime allowed anp avoid incl []).2.1).2.2 = false := by
  unfold GraphRoom.build_router
  rw [RouterCache.get_nil]
  simp only []
  rw [hkey, RouterCache.get_cons_self]
  exact ⟨rfl, rfl⟩

/-! ### Room build and door lemmas -/

theorem prepare_build_none {G : Type} (ops : GeomOps G) (g : G)
    (h : ops.is_empty (ops.buffer (-(3/10)) g) = true) :
    prepare_build ops g = none := by
  unfold prepare_build
  rw [if_pos h]

theorem prepare_build_some {G : Type} (ops : GeomOps G) (g : G)
    (st : RoomBuildState G) (h : prepare_build ops g = some st) :
    st.mpl_clear = ops.mpl_contains (ops.buffer (1/100) (ops.buffer (-(3/10)) g))
      ∧ st.built_points = []
      ∧ ops.is_empty (ops.buffer (-(3/10)) g) = false := by
  unfold prepare_build at h
  by_cases he : ops.is_empty (ops.buffer (-(3/10)) g) = true
  · rw [if_pos he] at h; cases h
  · rw [if_neg he] at h
    injection h with h
    rw [← h]
    exact ⟨rfl, rfl, by simpa using he⟩

theorem add_point_mpl_clear {G : Type} (st : RoomBuildState G) (coord : ℚ × ℚ) :
    (add_point st coord).1.mpl_clear = st.mpl_clear := by
  unfold add_point
  by_cases h : st.mpl_clear coord = true
  · rw [if_pos h]
  · rw [if_neg h]

theorem add_point_reject {G : Type} (st : RoomBuildState G) (coord : ℚ × ℚ)
    (h : st.mpl_clear coord = false) : add_point st coord = (st, []) := by
  unfold add_point
  rw [h]
  simp

theorem add_point_points {G : Type} (st : RoomBuildState G) (coord : ℚ × ℚ) :
    ∀ p ∈ (add_point st coord).1.built_points,
      p ∈ st.built_points ∨ st.mpl_clear p = true := by
  unfold add_point
  by_cases h : st.mpl_clear coord = true
  · rw [if_pos h]
    intro p hp
    rcases List.mem_append.mp hp with hp | hp
    · exact Or.inl hp
    · rcases List.mem_singleton.mp hp with rfl
      exact Or.inr h
  · rw [if_neg h]
    intro p hp
    exact Or.inl hp

theorem add_points_clearance {G : Type} :
    ∀ (coords : List (ℚ × ℚ)) (st : RoomBuildState G),
      (∀ p ∈ st.built_points, st.mpl_clear p = true) →
      (add_points st coords).mpl_clear = st.mpl_clear
        ∧ ∀ p ∈ (add_points st coords).built_points, st.mpl_clear p = true := by
  intro coords
  induction coords with
  | nil => intro st hinv; exact ⟨rfl, hinv⟩
  | cons c coords ih =>
    intro st hinv
    have hmpl := add_point_mpl_clear st c
    have hinv' : ∀ p ∈ (add_point st c).1.built_points,
        (add_point st c).1.mpl_clear p = true := by
      intro p hp
      rw [hmpl]
      rcases add_point_points st c p hp with hp | hp
      · exact hinv p hp
      · exact hp
    obtain ⟨h1, h2⟩ := ih (add_point st c).1 hinv'
    refine ⟨by rw [show add_points st (c :: coords)
        = add_points (add_point st c).1 coords from rfl, h1, hmpl], ?_⟩
    intro p hp
    rw [← hmpl]
    exact h2 p hp

theorem build_room_of_empty {G : Type} (ops : GeomOps G)
    (rest : RoomBuildState G → BuiltRoom) (g : G)
    (h : ops.is_empty (ops.buffer (-(3/10)) g) = true) :
    build_room ops rest g = { points := [], connections := [] } := by
  unfold build_room
  rw [prepare_build_none ops g h]

theorem foldr_conn_mem (c : ℚ × ℚ) :
    ∀ (pts : List (ℚ × ℚ)) (p : ℚ × ℚ), p ∈ pts →
      (c, p) ∈ pts.foldr (fun x acc => (c, x) :: (x, c) :: acc) []
        ∧ (p, c) ∈ pts.foldr (fun x acc => (c, x) :: (x, c) :: acc) [] := by
  intro pts
  induction pts with
  | nil => intro p hp; cases hp
  | cons x pts ih =>
    intro p hp
    rcases List.mem_cons.mp hp with rfl | hp
    · exact ⟨List.mem_cons_self _ _, List.mem_cons_of_mem _ (List.mem_cons_self _ _)⟩
    · obtain ⟨h1, h2⟩ := ih p hp
      exact ⟨List.mem_cons_of_mem _ (List.mem_cons_of_mem _ h1),
        List.mem_cons_of_mem _ (List.mem_cons_of_mem _ h2)⟩

/-! ### Rooms without excludable groups -/

theorem factors3_of_no_excludables {r : GraphRoom} (h : r.excludables = [])
    (anp : Bool) (aI iI : List ℕ) (p q : Fin r.n) :
    r.factors3 anp aI iI p q = 1 := by
  have hmp : ∀ (idxs : List ℕ) (x : Fin r.n), r.memberPoints idxs x = false := by
    intro idxs x
    unfold GraphRoom.memberPoints
    rw [h]
    rfl
  have hguard : r.nonpublicGuard iI = false := by
    unfold GraphRoom.nonpublicGuard GraphRoom.excludableNames strInIntTuple
    rw [h]
    rfl
  have hf1 : ∀ x y : Fin r.n, r.factors1 anp iI x y = 1 := by
    intro x y
    unfold GraphRoom.factors1
    rw [hguard]
    simp
  have hf2 : ∀ x y : Fin r.n, r.factors2 anp aI iI x y = 1 := by
    intro x y
    unfold GraphRoom.factors2
    by_cases he : aI.isEmpty
    · rw [if_pos he]; exact hf1 x y
    · rw [if_neg he]
      unfold maxCols maxRows
      simp [hmp, hf1]
  unfold GraphRoom.factors3
  by_cases he : iI.isEmpty
  · rw [if_pos he]; exact hf2 p q
  · rw [if_neg he]
    unfold setCols setRows
    simp [hmp, hf2]

theorem weighted_of_no_excludables {r : GraphRoom} (h : r.excludables = [])
    (cI : List ℕ) (anp : Bool) (aI iI : List ℕ) (p q : Fin r.n) :
    r.weighted cI anp aI iI p q = r.collapsed cI p q := by
  unfold GraphRoom.weighted
  rw [factors3_of_no_excludables h, mul_one]

/-! ### Concrete evaluations -/

theorem finRange_one : List.finRange 1 = [0] := rfl

theorem finRange_two : List.finRange 2 = [0, 1] := rfl

theorem scenario_collapsed_walk (i j : Fin 2) :
    scenarioRoom.collapsed [0] i j = (if i = j then ⊤ else ((5:ℚ) : Cost)) := by
  show (Finset.univ.inf fun ℓ : Fin 2 =>
    ([("walk", mat2 ((5:ℚ) : Cost)), ("stair", mat2 ((2:ℚ) : Cost))].get ℓ).2 i j
      * ctypeFactor [0] ℓ.val) = _
  rw [inf_univ_eq_foldr, finRange_two]
  simp only [List.map_cons, List.map_nil, List.foldr_cons, List.foldr_nil]
  show min (mat2 ((5:ℚ):Cost) i j * ctypeFactor [0] 0)
      (min (mat2 ((2:ℚ):Cost) i j * ctypeFactor [0] 1) ⊤) = _
  rw [show ctypeFactor [0] 0 = 1 from rfl, show ctypeFactor [0] 1 = 1000 from rfl]
  unfold mat2
  by_cases hij : i = j
  · simp [hij]
  · simp only [hij, if_false]
    rw [mul_one, min_eq_left le_top, min_eq_left]
    simp only [← WithTop.coe_ofNat, ← WithTop.coe_mul, WithTop.coe_le_coe]
    norm_num

theorem scenario_collapsed_both (i j : Fin 2) :
    scenarioRoom.collapsed [0, 1] i j = (if i = j then ⊤ else ((2:ℚ) : Cost)) := by
  show (Finset.univ.inf fun ℓ : Fin 2 =>
    ([("walk", mat2 ((5:ℚ) : Cost)), ("stair", mat2 ((2:ℚ) : Cost))].get ℓ).2 i j
      * ctypeFactor [0, 1] ℓ.val) = _
  rw [inf_univ_eq_foldr, finRange_two]
  simp only [List.map_cons, List.map_nil, List.foldr_cons, List.foldr_nil]
  show min (mat2 ((5:ℚ):Cost) i j * ctypeFactor [0, 1] 0)
      (min (mat2 ((2:ℚ):Cost) i j * ctypeFactor [0, 1] 1) ⊤) = _
  rw [show ctypeFactor [0, 1] 0 = 1 from rfl, show ctypeFactor [0, 1] 1 = 1 from rfl]
  unfold mat2
  by_cases hij : i = j
  · simp [hij]
  · simp only [hij, if_false]
    rw [mul_one, mul_one, min_eq_left le_top, min_eq_right]
    simp only [← WithTop.coe_ofNat, WithTop.coe_le_coe]
    norm_num

theorem scenario_spd_walk :
    @shortest_path 2 (fun i j : Fin 2 => scenarioRoom.collapsed [0] i j) 0 1
      = ((5:ℚ):Cost) := by
  show bf (fun i j : Fin 2 => scenarioRoom.collapsed [0] i j) 2 0 1 = _
  simp only [bf, inf_univ_eq_foldr, finRange_two, List.map_cons, List.map_nil,
    List.foldr_cons, List.foldr_nil, scenario_collapsed_walk]
  norm_num

theorem scenario_spd_both :
    @shortest_path 2 (fun i j : Fin 2 => scenarioRoom.collapsed [0, 1] i j) 0 1
      = ((2:ℚ):Cost) := by
  show bf (fun i j : Fin 2 => scenarioRoom.collapsed [0, 1] i j) 2 0 1 = _
  simp only [bf, inf_univ_eq_foldr, finRange_two, List.map_cons, List.map_nil,
    List.foldr_cons, List.foldr_nil, scenario_collapsed_both]
  norm_num

theorem roomA_collapsed (i j : Fin 2) :
    roomA.collapsed [0] i j = mat2 ((5:ℚ):Cost) i j := by
  show (Finset.univ.inf fun ℓ : Fin 1 =>
    ([("walk", mat2 ((5:ℚ):Cost))].get ℓ).2 i j * ctypeFactor [0] ℓ.val) = _
  rw [inf_univ_eq_foldr, finRange_one]
  simp only [List.map_cons, List.map_nil, List.foldr_cons, List.foldr_nil]
  show min (mat2 ((5:ℚ):Cost) i j * ctypeFactor [0] 0) ⊤ = _
  rw [show ctypeFactor [0] 0 = 1 from rfl, mul_one, min_eq_left le_top]

theorem roomB_collapsed (i j : Fin 2) :
    roomB.collapsed [0] i j = mat2 ((7:ℚ):Cost) i j := by
  show (Finset.univ.inf fun ℓ : Fin 1 =>
    ([("walk", mat2 ((7:ℚ):Cost))].get ℓ).2 i j * ctypeFactor [0] ℓ.val) = _
  rw [inf_univ_eq_foldr, finRange_one]
  simp only [List.map_cons, List.map_nil, List.foldr_cons, List.foldr_nil]
  show min (mat2 ((7:ℚ):Cost) i j * ctypeFactor [0] 0) ⊤ = _
  rw [show ctypeFactor [0] 0 = 1 from rfl, mul_one, min_eq_left le_top]

theorem roomA_spd :
    @shortest_path 2 (fun i j : Fin 2 => roomA.weighted [0] false [] [] i j) 0 1
      = ((5:ℚ):Cost) := by
  have hw : ∀ i j : Fin 2, roomA.weighted [0] false [] [] i j = mat2 ((5:ℚ):Cost) i j := by
    intro i j
    rw [weighted_of_no_excludables rfl, roomA_collapsed]
  show bf (fun i j : Fin 2 => roomA.weighted [0] false [] [] i j) 2 0 1 = _
  simp only [bf, inf_univ_eq_foldr, finRange_two, List.map_cons, List.map_nil,
    List.foldr_cons, List.foldr_nil, hw, mat2]
  norm_num

theorem roomB_spd :
    @shortest_path 2 (fun i j : Fin 2 => roomB.weighted [0] false [] [] i j) 0 1
      = ((7:ℚ):Cost) := by
  have hw : ∀ i j : Fin 2, roomB.weighted [0] false [] [] i j = mat2 ((7:ℚ):Cost) i j := by
    intro i j
    rw [weighted_of_no_excludables rfl, roomB_collapsed]
  show bf (fun i j : Fin 2 => roomB.weighted [0] false [] [] i j) 2 0 1 = _
  simp only [bf, inf_univ_eq_foldr, finRange_two, List.map_cons, List.map_nil,
    List.foldr_cons, List.foldr_nil, hw, mat2]
  norm_num

theorem nonpublic_collapsed (i j : Fin 3) :
    nonpublicRoom.collapsed [0] i j = walk3 i j := by
  show (Finset.univ.inf fun ℓ : Fin 1 =>
    ([("walk", walk3)].get ℓ).2 i j * ctypeFactor [0] ℓ.val) = _
  rw [inf_univ_eq_foldr, finRange_one]
  simp only [List.map_cons, List.map_nil, List.foldr_cons, List.foldr_nil]
  show min (walk3 i j * ctypeFactor [0] 0) ⊤ = _
  rw [show ctypeFactor [0] 0 = 1 from rfl, mul_one, min_eq_left le_top]

theorem argmin_cons_zero {x : Cost} {xs : List Cost} (h : ∀ y ∈ xs, x ≤ y) :
    argmin (x :: xs) = 0 := by
  unfold argmin
  rw [if_pos]
  rw [List.all_eq_true]
  intro y hy
  simpa using h y hy

/-! ## Claims -/

/-- C6: for every constraint configuration (any allowed ctypes,
allow_nonpublic flag, avoid and include sets) the distance table produced
by the router's all-pairs shortest-path computation satisfies the triangle
inequality, given the build invariant that compiled distances are
non-negative. -/
theorem claim6_triangle_inequality (r : GraphRoom) (allowed : List String)
    (anp : Bool) (avoid incl : List String)
    (hd : ∀ (ℓ : Fin r.layers.length) (i j : Fin r.n), 0 ≤ (r.layers.get ℓ).2 i j)
    (i j k : Fin r.n) :
    shortest_path (r.weighted (selectedIdxs r.ctypes allowed) anp
        (selectedIdxs r.excludableNames avoid)
        (selectedIdxs r.excludableNames incl)) i k
      ≤ shortest_path (r.weighted (selectedIdxs r.ctypes allowed) anp
          (selectedIdxs r.excludableNames avoid)
          (selectedIdxs r.excludableNames incl)) i j
        + shortest_path (r.weighted (selectedIdxs r.ctypes allowed) anp
            (selectedIdxs r.excludableNames avoid)
            (selectedIdxs r.excludableNames incl)) j k :=
  shortest_path_triangle (weighted_nonneg hd) i j k

theorem claim6_witness :
    (∀ (ℓ : Fin scenarioRoom.layers.length) (i j : Fin scenarioRoom.n),
        0 ≤ (scenarioRoom.layers.get ℓ).2 i j)
    ∧ shortest_path (scenarioRoom.weighted (selectedIdxs scenarioRoom.ctypes ["walk"])
          false (selectedIdxs scenarioRoom.excludableNames [])
          (selectedIdxs scenarioRoom.excludableNames [])) ⟨0, by decide⟩ ⟨1, by decide⟩
      ≤ shortest_path (scenarioRoom.weighted (selectedIdxs scenarioRoom.ctypes ["walk"])
          false (selectedIdxs scenarioRoom.excludableNames [])
          (selectedIdxs scenarioRoom.excludableNames [])) ⟨0, by decide⟩ ⟨0, by decide⟩
        + shortest_path (scenarioRoom.weighted (selectedIdxs scenarioRoom.ctypes ["walk"])
            false (selectedIdxs scenarioRoom.excludableNames [])
            (selectedIdxs scenarioRoom.excludableNames [])) ⟨0, by decide⟩ ⟨1, by decide⟩ :=
  ⟨by decide, claim6_triangle_inequality scenarioRoom ["walk"] false [] []
    (by decide) ⟨0, by decide⟩ ⟨0, by decide⟩ ⟨1, by decide⟩⟩

/-- C7: during graph building a point is created only if the offered
coordinate lies inside the clearance polygon (the accessible geometry
shrunk inward by the 0.3 wall clearance then tested with the 0.01
tolerance buffer); a coordinate outside it silently yields no point and no
error, so every point generated by any sequence of `add_point` offers lies
within the clearance polygon. -/
theorem claim7_add_point_clearance {G : Type} (ops : GeomOps G) (g : G)
    (st0 : RoomBuildState G) (hprep : prepare_build ops g = some st0)
    (coords : List (ℚ × ℚ)) :
    (∀ (st : RoomBuildState G) (coord : ℚ × ℚ), st.mpl_clear coord = false →
        add_point st coord = (st, []))
    ∧ (∀ p ∈ (add_points st0 coords).built_points,
        ops.mpl_contains (ops.buffer (1/100) (ops.buffer (-(3/10)) g)) p = true) := by
  obtain ⟨hclear, hpts, _⟩ := prepare_build_some ops g st0 hprep
  refine ⟨fun st coord h => add_point_reject st coord h, ?_⟩
  have hinv : ∀ p ∈ st0.built_points, st0.mpl_clear p = true := by
    rw [hpts]
    intro p hp
    cases hp
  obtain ⟨_, h2⟩ := add_points_clearance coords st0 hinv
  intro p hp
  rw [← hclear]
  exact h2 p hp

theorem claim7_witness :
    prepare_build toyGeomOps false = some
      { clear_geometry := false
        mpl_clear := fun c => decide (0 ≤ c.1)
        built_points := [] }
    ∧ ∀ p ∈ (add_points
        { clear_geometry := false
          mpl_clear := fun c => decide (0 ≤ c.1)
          built_points := ([] : List (ℚ × ℚ)) }
        [((1:ℚ), (0:ℚ)), ((-1:ℚ), (0:ℚ))]).built_points,
      toyGeomOps.mpl_contains (toyGeomOps.buffer (1/100)
        (toyGeomOps.buffer (-(3/10)) false)) p = true :=
  ⟨rfl, (claim7_add_point_clearance toyGeomOps false _ rfl
    [((1:ℚ), (0:ℚ)), ((-1:ℚ), (0:ℚ))]).2⟩

/-- C8: if shrinking a room's accessible geometry by the wall clearance
leaves an empty clearance polygon, `prepare_build` returns `False` and the
room build yields an empty room (no points, no connections) without
raising. -/
theorem claim8_empty_geometry_empty_room {G : Type} (ops : GeomOps G) (g : G)
    (rest : RoomBuildState G → BuiltRoom)
    (hempty : ops.is_empty (ops.buffer (-(3/10)) g) = true) :
    prepare_build ops g = none
      ∧ build_room ops rest g = { points := [], connections := [] } :=
  ⟨prepare_build_none ops g hempty, build_room_of_empty ops rest g hempty⟩

theorem claim8_witness :
    prepare_build toyGeomOps true = none
      ∧ build_room toyGeomOps
          (fun _ => { points := [((0:ℚ), (0:ℚ))], connections := [] }) true
        = { points := [], connections := [] } :=
  claim8_empty_geometry_empty_room toyGeomOps true
    (fun _ => { points := [((0:ℚ), (0:ℚ))], connections := [] }) rfl

/-- C9 (corrected): `create_doors` connects the synthetic door-center
point bidirectionally to the created room point of each intersecting room
region, and the integrity warning fires iff the number of room-region
connections (`num_points`, counting each disjoint intersection subpolygon
separately — not the number of distinct rooms) is below two; the build
always continues and returns the door data. -/
theorem claim9_door_warning_amended {G P : Type} (ops : DoorOps G P)
    (rooms : List (DoorRoom G)) (door : G) :
    (∀ p ∈ (create_door ops rooms door).door_points,
        ((create_door ops rooms door).center, p)
            ∈ (create_door ops rooms door).connections
          ∧ (p, (create_door ops rooms door).center)
            ∈ (create_door ops rooms door).connections)
    ∧ ((create_door ops rooms door).warned = true
        ↔ (create_door ops rooms door).num_points < 2) := by
  constructor
  · intro p hp
    exact foldr_conn_mem (create_door ops rooms door).center
      (create_door ops rooms door).door_points p hp
  · simp [create_door]

theorem claim9_witness :
    (((create_door toyDoorOps toyDoorRooms 0).center, ((0:ℚ), (0:ℚ)))
        ∈ (create_door toyDoorOps toyDoorRooms 0).connections
      ∧ (((0:ℚ), (0:ℚ)), (create_door toyDoorOps toyDoorRooms 0).center)
        ∈ (create_door toyDoorOps toyDoorRooms 0).connections)
    ∧ ((create_door toyDoorOps toyDoorRooms 0).warned = true
        ↔ (create_door toyDoorOps toyDoorRooms 0).num_points < 2) :=
  ⟨(claim9_door_warning_amended toyDoorOps toyDoorRooms 0).1
      ((0:ℚ), (0:ℚ)) (by decide),
    (claim9_door_warning_amended toyDoorOps toyDoorRooms 0).2⟩

/-- C9 counterexample: a door whose buffered polygon intersects a single
room in two disjoint subpolygons connects fewer than two rooms, yet
`num_points = 2` and no integrity warning is printed — refuting the claim
that a door connecting fewer than two rooms is always reported. -/
theorem claim9_counterexample :
    door_connected_rooms toyDoorOps toyDoorRooms 0 = 1
      ∧ (create_door toyDoorOps toyDoorRooms 0).num_points = 2
      ∧ (create_door toyDoorOps toyDoorRooms 0).warned = false := by
  refine ⟨rfl, rfl, rfl⟩

/-- C10: `get_connection` is total over valid local point indices; when
every ctype layer's entry for the pair is `inf`, it returns a
`GraphConnection` with distance `inf` whose ctype is the room's first
compiled ctype (`np.argmin` of an all-`inf` stack is index 0). -/
theorem claim10_get_connection_total (r : GraphRoom) (hne : r.layers ≠ [])
    (from_i to_i : Fin r.n)
    (hall : ∀ L ∈ r.layers, L.2 from_i to_i = ⊤) :
    (r.get_connection from_i to_i).distance = ⊤
      ∧ (r.get_connection from_i to_i).ctype = r.ctypes.headI := by
  cases hL : r.layers with
  | nil => exact absurd hL hne
  | cons hd tl =>
    unfold GraphRoom.get_connection GraphRoom.ctypes
    rw [hL]
    simp only [List.map_cons]
    have hhd : hd.2 from_i to_i = ⊤ := hall hd (hL ▸ List.mem_cons_self hd tl)
    have hmin : argmin (hd.2 from_i to_i
        :: tl.map (fun L => L.2 from_i to_i)) = 0 := by
      apply argmin_cons_zero
      intro y hy
      obtain ⟨L, hLmem, rfl⟩ := List.mem_map.mp hy
      rw [hall L (hL ▸ List.mem_cons_of_mem hd hLmem)]
      exact le_top
    rw [hmin]
    exact ⟨by rw [show (hd.2 from_i to_i :: tl.map
        (fun L => L.2 from_i to_i)).getD 0 ⊤ = hd.2 from_i to_i from rfl, hhd], rfl⟩

theorem claim10_witness :
    scenarioRoom.layers ≠ []
    ∧ (∀ L ∈ scenarioRoom.layers, L.2 ⟨0, by decide⟩ ⟨0, by decide⟩ = ⊤)
    ∧ (scenarioRoom.get_connection ⟨0, by decide⟩ ⟨0, by decide⟩).distance = ⊤
    ∧ (scenarioRoom.get_connection ⟨0, by decide⟩ ⟨0, by decide⟩).ctype = "walk" :=
  ⟨by decide, by decide,
    (claim10_get_connection_total scenarioRoom (by decide)
      ⟨0, by decide⟩ ⟨0, by decide⟩ (by decide)).1,
    (claim10_get_connection_total scenarioRoom (by decide)
      ⟨0, by decide⟩ ⟨0, by decide⟩ (by decide)).2⟩

/-- C1: in every router build, a point belonging to a group in `include`
ends with penalty multiplier 1 in the final weighted matrix regardless of
`avoid` membership or `:nonpublic` tagging (its weighted row and column
equal the collapsed distances); a group in `avoid` only ever raises a
point's multiplier — the avoid step never lowers any entry and forces at
least the soft penalty 1000 on member rows/columns; and a group present in
both `avoid` and `include` behaves exactly as if only `include` were set
(the computed router is identical). -/
theorem claim1_include_dominates_avoid :
    (∀ (r : GraphRoom) (cI : List ℕ) (anp : Bool) (avoid incl : List String)
        (p : Fin r.n),
        r.memberPoints (selectedIdxs r.excludableNames incl) p = true →
        ∀ q : Fin r.n,
          r.factors3 anp (selectedIdxs r.excludableNames avoid)
            (selectedIdxs r.excludableNames incl) p q = 1
          ∧ r.factors3 anp (selectedIdxs r.excludableNames avoid)
            (selectedIdxs r.excludableNames incl) q p = 1
          ∧ r.weighted cI anp (selectedIdxs r.excludableNames avoid)
            (selectedIdxs r.excludableNames incl) p q = r.collapsed cI p q
          ∧ r.weighted cI anp (selectedIdxs r.excludableNames avoid)
            (selectedIdxs r.excludableNames incl) q p = r.collapsed cI q p)
    ∧ (∀ (r : GraphRoom) (anp : Bool) (avoidI inclI : List ℕ) (p q : Fin r.n),
        r.factors1 anp inclI p q ≤ r.factors2 anp avoidI inclI p q
        ∧ ((r.memberPoints avoidI p = true ∨ r.memberPoints avoidI q = true) →
            1000 ≤ r.factors2 anp avoidI inclI p q))
    ∧ (∀ (r : GraphRoom) (cI : List ℕ) (anp : Bool) (avoid incl : List String)
        (g : String), g ∈ incl →
        r._build_router cI anp (selectedIdxs r.excludableNames (g :: avoid))
            (selectedIdxs r.excludableNames incl)
          = r._build_router cI anp (selectedIdxs r.excludableNames avoid)
            (selectedIdxs r.excludableNames incl)) := by
  refine ⟨?_, ?_, ?_⟩
  · intro r cI anp avoid incl p hp q
    obtain ⟨h1, h2⟩ := factors3_include_one hp q
    refine ⟨h1, h2, ?_, ?_⟩
    · unfold GraphRoom.weighted
      rw [h1, mul_one]
    · unfold GraphRoom.weighted
      rw [h2, mul_one]
  · intro r anp avoidI inclI p q
    exact ⟨factors1_le_factors2 r anp avoidI inclI p q,
      fun hm => factors2_ge_1000 hm⟩
  · intro r cI anp avoid incl g hg
    exact router_avoid_include_invariant r cI anp avoid incl g hg

theorem claim1_witness :
    nonpublicRoom.factors3 false (selectedIdxs nonpublicRoom.excludableNames ["vip"])
        (selectedIdxs nonpublicRoom.excludableNames ["vip"])
        ⟨1, by decide⟩ ⟨0, by decide⟩ = 1
    ∧ 1000 ≤ nonpublicRoom.factors2 false [1] [1] ⟨1, by decide⟩ ⟨0, by decide⟩
    ∧ nonpublicRoom._build_router [0] false
        (selectedIdxs nonpublicRoom.excludableNames ("vip" :: []))
        (selectedIdxs nonpublicRoom.excludableNames ["vip"])
      = nonpublicRoom._build_router [0] false
        (selectedIdxs nonpublicRoom.excludableNames [])
        (selectedIdxs nonpublicRoom.excludableNames ["vip"]) :=
  ⟨(claim1_include_dominates_avoid.1 nonpublicRoom [0] false ["vip"] ["vip"]
      ⟨1, by decide⟩ (by decide) ⟨0, by decide⟩).1,
   (claim1_include_dominates_avoid.2.1 nonpublicRoom false [1] [1]
      ⟨1, by decide⟩ ⟨0, by decide⟩).2 (Or.inl (by decide)),
   claim1_include_dominates_avoid.2.2 nonpublicRoom [0] false [] ["vip"] "vip"
      (by decide)⟩

/-- C2: each ctype distance layer is scaled by 1 if the ctype is allowed
and by the soft factor 1000 otherwise, and the layers are collapsed by
elementwise minimum, so a disallowed type is discouraged but never removed
(the collapsed entry is `inf` exactly when every layer lacks the edge);
in the scenario room (2-unit stair edge, 5-unit walk route between points
0 and 1) the router distance from 0 to 1 is 5 with
`allowed_ctypes = {walk}` and 2 with `allowed_ctypes = {walk, stair}`. -/
theorem claim2_soft_ctype_scenario :
    (∀ (r : GraphRoom) (cI : List ℕ) (i j : Fin r.n),
        r.collapsed cI i j = ⊤
          ↔ ∀ ℓ : Fin r.layers.length, (r.layers.get ℓ).2 i j = ⊤)
    ∧ (scenarioRoom._build_router (selectedIdxs scenarioRoom.ctypes ["walk"])
        false [] []).2 ⟨0, by decide⟩ ⟨1, by decide⟩ = ((5:ℚ):Cost)
    ∧ (scenarioRoom._build_router
        (selectedIdxs scenarioRoom.ctypes ["walk", "stair"])
        false [] []).2 ⟨0, by decide⟩ ⟨1, by decide⟩ = ((2:ℚ):Cost) := by
  refine ⟨fun r cI i j => collapsed_eq_top_iff, ?_, ?_⟩
  · show @shortest_path 2
        (fun i j : Fin 2 => scenarioRoom.weighted [0] false [] [] i j) 0 1
      = ((5:ℚ):Cost)
    have hw : (fun i j : Fin 2 => scenarioRoom.weighted [0] false [] [] i j)
        = fun i j : Fin 2 => scenarioRoom.collapsed [0] i j := by
      funext i j
      exact @weighted_of_no_excludables scenarioRoom rfl [0] false [] [] i j
    rw [hw]
    exact scenario_spd_walk
  · show @shortest_path 2
        (fun i j : Fin 2 => scenarioRoom.weighted [0, 1] false [] [] i j) 0 1
      = ((2:ℚ):Cost)
    have hw : (fun i j : Fin 2 => scenarioRoom.weighted [0, 1] false [] [] i j)
        = fun i j : Fin 2 => scenarioRoom.collapsed [0, 1] i j := by
      funext i j
      exact @weighted_of_no_excludables scenarioRoom rfl [0, 1] false [] [] i j
    rw [hw]
    exact scenario_spd_both

/-- C3 (corrected): for a `:nonpublic`-tagged point `p`, when `:nonpublic`
is not in `include`, the entries of `p`'s row and column whose other
endpoint is not itself a member of an included group are set to the soft
penalty 1000 if `allow_nonpublic` holds and to `inf` otherwise.  (Entries
whose other endpoint belongs to an included group are reset to 1 by the
later include step — see the counterexample — so the original claim's
"whole row and column" reading fails.)  When no included group selects any
point and `allow_nonpublic` is false, every walk through `p` containing at
least one edge has weighted cost `inf` (hard exclusion), assuming the
compiled distances are positive. -/
theorem claim3_nonpublic_amended (r : GraphRoom) (anp : Bool)
    (allowed avoid incl : List String)
    (hg : r.excludableNames.contains ":nonpublic" = true)
    (hni : ":nonpublic" ∉ incl)
    (p : Fin r.n) (hp : r.nonpublic_points p = true) :
    (∀ q : Fin r.n,
        r.memberPoints (selectedIdxs r.excludableNames incl) p = false →
        r.memberPoints (selectedIdxs r.excludableNames incl) q = false →
        r.factors3 anp (selectedIdxs r.excludableNames avoid)
            (selectedIdxs r.excludableNames incl) p q
          = (if anp then 1000 else ⊤)
        ∧ r.factors3 anp (selectedIdxs r.excludableNames avoid)
            (selectedIdxs r.excludableNames incl) q p
          = (if anp then 1000 else ⊤))
    ∧ (anp = false →
        (∀ x : Fin r.n,
          r.memberPoints (selectedIdxs r.excludableNames incl) x = false) →
        (∀ (ℓ : Fin r.layers.length) (i j : Fin r.n),
          0 < (r.layers.get ℓ).2 i j) →
        ∀ (i j : Fin r.n) (l : List (Fin r.n)), (p = i ∨ p = j ∨ p ∈ l) →
          (i ≠ j ∨ l ≠ []) →
          walkCost (r.weighted (selectedIdxs r.ctypes allowed) anp
            (selectedIdxs r.excludableNames avoid)
            (selectedIdxs r.excludableNames incl)) i l j = ⊤) := by
  constructor
  · intro q hip hiq
    exact factors3_nonpublic hg hp hip hiq
  · intro hanp hin hd i j l hvisit hnt
    subst hanp
    have hw : ∀ q : Fin r.n,
        r.weighted (selectedIdxs r.ctypes allowed) false
          (selectedIdxs r.excludableNames avoid)
          (selectedIdxs r.excludableNames incl) p q = ⊤
        ∧ r.weighted (selectedIdxs r.ctypes allowed) false
          (selectedIdxs r.excludableNames avoid)
          (selectedIdxs r.excludableNames incl) q p = ⊤ := by
      intro q
      obtain ⟨h1, h2⟩ := @factors3_nonpublic r false
        (selectedIdxs r.excludableNames avoid)
        (selectedIdxs r.excludableNames incl) hg p hp q (hin p) (hin q)
      rw [if_neg (by decide : ¬ (false = true))] at h1 h2
      constructor
      · unfold GraphRoom.weighted
        rw [h1]
        exact cost_pos_mul_top (collapsed_pos hd p q)
      · unfold GraphRoom.weighted
        rw [h2]
        exact cost_pos_mul_top (collapsed_pos hd q p)
    exact walkCost_through_top hw l i j hvisit hnt

theorem claim3_witness :
    nonpublicRoom.excludableNames.contains ":nonpublic" = true
    ∧ (":nonpublic" ∉ ([] : List String))
    ∧ nonpublicRoom.nonpublic_points ⟨0, by decide⟩ = true
    ∧ nonpublicRoom.factors3 false (selectedIdxs nonpublicRoom.excludableNames [])
        (selectedIdxs nonpublicRoom.excludableNames [])
        ⟨0, by decide⟩ ⟨1, by decide⟩ = (if false then 1000 else ⊤)
    ∧ walkCost (nonpublicRoom.weighted (selectedIdxs nonpublicRoom.ctypes ["walk"])
        false (selectedIdxs nonpublicRoom.excludableNames [])
        (selectedIdxs nonpublicRoom.excludableNames []))
        ⟨1, by decide⟩ [⟨0, by decide⟩, ⟨2, by decide⟩] ⟨2, by decide⟩ = ⊤ :=
  ⟨by decide, by decide, by decide,
   ((claim3_nonpublic_amended nonpublicRoom false ["walk"] [] [] (by decide)
      (by decide) ⟨0, by decide⟩ (by decide)).1 ⟨1, by decide⟩
      (by decide) (by decide)).1,
   (claim3_nonpublic_amended nonpublicRoom false ["walk"] [] [] (by decide)
      (by decide) ⟨0, by decide⟩ (by decide)).2 rfl (by decide) (by decide)
      ⟨1, by decide⟩ ⟨2, by decide⟩ [⟨0, by decide⟩, ⟨2, by decide⟩]
      (Or.inr (Or.inr (by decide))) (Or.inl (by decide))⟩

/-- C3 counterexample: in `nonpublicRoom`, with `allow_nonpublic = false`,
`:nonpublic` not in `include` but another group `vip` included, the entry
`(1, 0)` of the factor matrix — inside the nonpublic point 0's column — is
1 rather than `inf`, and the walk `1 → 0 → 2` through the nonpublic point
has finite weighted cost 7, so the router's distance from 1 to 2 is not
`inf`: the claim's hard exclusion of all paths through the point fails. -/
theorem claim3_counterexample :
    nonpublicRoom.nonpublic_points ⟨0, by decide⟩ = true
    ∧ (":nonpublic" ∉ (["vip"] : List String))
    ∧ nonpublicRoom.factors3 false (selectedIdxs nonpublicRoom.excludableNames [])
        (selectedIdxs nonpublicRoom.excludableNames ["vip"])
        ⟨1, by decide⟩ ⟨0, by decide⟩ = 1
    ∧ walkCost (nonpublicRoom.weighted (selectedIdxs nonpublicRoom.ctypes ["walk"])
        false (selectedIdxs nonpublicRoom.excludableNames [])
        (selectedIdxs nonpublicRoom.excludableNames ["vip"]))
        ⟨1, by decide⟩ [⟨0, by decide⟩, ⟨2, by decide⟩] ⟨2, by decide⟩
      = ((7:ℚ):Cost)
    ∧ @shortest_path 3 (fun i j : Fin 3 =>
        nonpublicRoom.weighted (selectedIdxs nonpublicRoom.ctypes ["walk"])
          false (selectedIdxs nonpublicRoom.excludableNames [])
          (selectedIdxs nonpublicRoom.excludableNames ["vip"]) i j)
        ⟨1, by decide⟩ ⟨2, by decide⟩ ≠ ⊤ := by
  have h10 : nonpublicRoom.weighted (selectedIdxs nonpublicRoom.ctypes ["walk"])
      false (selectedIdxs nonpublicRoom.excludableNames [])
      (selectedIdxs nonpublicRoom.excludableNames ["vip"])
      ⟨1, by decide⟩ ⟨0, by decide⟩ = ((3:ℚ):Cost) := by
    show nonpublicRoom.collapsed [0] ⟨1, by decide⟩ ⟨0, by decide⟩
        * nonpublicRoom.factors3 false [] [1] ⟨1, by decide⟩ ⟨0, by decide⟩ = _
    rw [nonpublic_collapsed,
      show nonpublicRoom.factors3 false [] [1] ⟨1, by decide⟩ ⟨0, by decide⟩ = 1
        from by decide,
      mul_one]
    decide
  have h02 : nonpublicRoom.weighted (selectedIdxs nonpublicRoom.ctypes ["walk"])
      false (selectedIdxs nonpublicRoom.excludableNames [])
      (selectedIdxs nonpublicRoom.excludableNames ["vip"])
      ⟨0, by decide⟩ ⟨2, by decide⟩ = ((4:ℚ):Cost) := by
    show nonpublicRoom.collapsed [0] ⟨0, by decide⟩ ⟨2, by decide⟩
        * nonpublicRoom.factors3 false [] [1] ⟨0, by decide⟩ ⟨2, by decide⟩ = _
    rw [nonpublic_collapsed,
      show nonpublicRoom.factors3 false [] [1] ⟨0, by decide⟩ ⟨2, by decide⟩ = 1
        from by decide,
      mul_one]
    decide
  have hwalk : walkCost (nonpublicRoom.weighted
      (selectedIdxs nonpublicRoom.ctypes ["walk"]) false
      (selectedIdxs nonpublicRoom.excludableNames [])
      (selectedIdxs nonpublicRoom.excludableNames ["vip"]))
      ⟨1, by decide⟩ [⟨0, by decide⟩, ⟨2, by decide⟩] ⟨2, by decide⟩
      = ((7:ℚ):Cost) := by
    show nonpublicRoom.weighted (selectedIdxs nonpublicRoom.ctypes ["walk"])
        false (selectedIdxs nonpublicRoom.excludableNames [])
        (selectedIdxs nonpublicRoom.excludableNames ["vip"])
        ⟨1, by decide⟩ ⟨0, by decide⟩
      + (nonpublicRoom.weighted (selectedIdxs nonpublicRoom.ctypes ["walk"])
          false (selectedIdxs nonpublicRoom.excludableNames [])
          (selectedIdxs nonpublicRoom.excludableNames ["vip"])
          ⟨0, by decide⟩ ⟨2, by decide⟩ + 0) = _
    rw [h10, h02, add_zero]
    simp only [← WithTop.coe_ofNat, ← WithTop.coe_add, WithTop.coe_inj]
    norm_num
  refine ⟨by decide, by decide, by decide, hwalk, ?_⟩
  intro htop
  have hle := bf_le_walkCost (nonpublicRoom.weighted
      (selectedIdxs nonpublicRoom.ctypes ["walk"]) false
      (selectedIdxs nonpublicRoom.excludableNames [])
      (selectedIdxs nonpublicRoom.excludableNames ["vip"]))
      [⟨0, by decide⟩, ⟨2, by decide⟩] 3 ⟨1, by decide⟩ ⟨2, by decide⟩ (by decide)
  rw [hwalk] at hle
  have htop2 : bf (nonpublicRoom.weighted
      (selectedIdxs nonpublicRoom.ctypes ["walk"]) false
      (selectedIdxs nonpublicRoom.excludableNames [])
      (selectedIdxs nonpublicRoom.excludableNames ["vip"]))
      3 ⟨1, by decide⟩ ⟨2, by decide⟩ = ⊤ := htop
  rw [htop2] at hle
  exact absurd hle (by decide)

/-- C4: two `build_router` calls with identical
`(allowed_ctypes, allow_nonpublic, avoid, include)` and the same graph
`mtime` return the previously computed router without recomputation; the
cache key is built from the graph version, room id, allowed ctype indices,
the allow_nonpublic flag and the avoid/include group indices, and keys
built under distinct `mtime` values never collide, so a rebuilt graph
never hits a stale entry (a call under a new `mtime` always recomputes). -/
theorem claim4_router_cache_memoization :
    (∀ (r : GraphRoom) (mtime : ℕ) (allowed : List String) (anp : Bool)
        (avoid incl : List String) (cache : RouterCache),
        (r.build_router mtime allowed anp avoid incl
            (r.build_router mtime allowed anp avoid incl cache).2.1).1
          = (r.build_router mtime allowed anp avoid incl cache).1
        ∧ (r.build_router mtime allowed anp avoid incl
            (r.build_router mtime allowed anp avoid incl cache).2.1).2.2 = false)
    ∧ (∀ (m₁ m₂ ri₁ ri₂ : ℕ) (c₁ c₂ : List ℕ) (a₁ a₂ : Bool)
        (av₁ av₂ ic₁ ic₂ : List ℕ), m₁ ≠ m₂ →
        cache_key m₁ ri₁ c₁ a₁ av₁ ic₁ ≠ cache_key m₂ ri₂ c₂ a₂ av₂ ic₂)
    ∧ (∀ (r : GraphRoom) (m₁ m₂ : ℕ), m₁ ≠ m₂ →
        ∀ (al₁ al₂ : List String) (anp₁ anp₂ : Bool)
          (av₁ av₂ ic₁ ic₂ : List String),
        (r.build_router m₂ al₂ anp₂ av₂ ic₂
            (r.build_router m₁ al₁ anp₁ av₁ ic₁ []).2.1).2.2 = true) :=
  ⟨fun r mtime allowed anp avoid incl cache =>
      build_router_memo r mtime allowed anp avoid incl cache,
   fun _ _ _ _ _ _ _ _ _ _ _ _ hm hc => hm (cache_key_mtime_inj hc),
   fun r _ _ hm al₁ al₂ anp₁ anp₂ av₁ av₂ ic₁ ic₂ =>
      build_router_new_mtime_recomputes r hm al₁ al₂ anp₁ anp₂ av₁ av₂ ic₁ ic₂⟩

theorem claim4_witness :
    ((roomA.build_router 0 ["walk"] false [] []
        (roomA.build_router 0 ["walk"] false [] [] []).2.1).1
      = (roomA.build_router 0 ["walk"] false [] [] []).1)
    ∧ cache_key 0 0 [0] false [] [] ≠ cache_key 1 0 [0] false [] []
    ∧ (roomA.build_router 1 ["walk"] false [] []
        (roomA.build_router 0 ["walk"] false [] [] []).2.1).2.2 = true :=
  ⟨(claim4_router_cache_memoization.1 roomA 0 ["walk"] false [] [] []).1,
   claim4_router_cache_memoization.2.1 0 1 0 0 [0] [0] false false [] [] [] []
     (by decide),
   claim4_router_cache_memoization.2.2 roomA 0 1 (by decide)
     ["walk"] ["walk"] false false [] [] [] []⟩

/-- C5 (corrected): `router_cache = {}` is a class-level dict on
`GraphRoom`, one mutable mapping shared by every instance of the process;
entries are separated only by their cache key, so a `build_router` call on
one room is served — without recomputation — by the entry another room
instance stored, whenever the two calls produce the same key. -/
theorem claim5_shared_class_cache_amended (r₁ r₂ : GraphRoom) (mtime : ℕ)
    (allowed : List String) (anp : Bool) (avoid incl : List String)
    (hkey : cache_key mtime r₂.i (selectedIdxs r₂.ctypes allowed) anp
        (selectedIdxs r₂.excludableNames avoid)
        (selectedIdxs r₂.excludableNames incl)
      = cache_key mtime r₁.i (selectedIdxs r₁.ctypes allowed) anp
        (selectedIdxs r₁.excludableNames avoid)
        (selectedIdxs r₁.excludableNames incl)) :
    (r₂.build_router mtime allowed anp avoid incl
        (r₁.build_router mtime allowed anp avoid incl []).2.1).1
      = (r₁.build_router mtime allowed anp avoid incl []).1
    ∧ (r₂.build_router mtime allowed anp avoid incl
        (r₁.build_router mtime allowed anp avoid incl []).2.1).2.2 = false :=
  build_router_cross_instance r₁ r₂ mtime allowed anp avoid incl hkey

theorem claim5_witness :
    (roomB.build_router 0 ["walk"] false [] []
        (roomA.build_router 0 ["walk"] false [] [] []).2.1).1
      = (roomA.build_router 0 ["walk"] false [] [] []).1
    ∧ (roomB.build_router 0 ["walk"] false [] []
        (roomA.build_router 0 ["walk"] false [] [] []).2.1).2.2 = false :=
  claim5_shared_class_cache_amended roomA roomB 0 ["walk"] false [] []
    (by decide)

/-- C5 counterexample: `roomA` and `roomB` are distinct `GraphRoom`
instances (same room id, ctype names and graph version, different distance
matrices).  `roomB`'s `build_router` call is answered from the cache state
left by `roomA`'s call — no recomputation, and the router returned to
`roomB` is `roomA`'s — although `roomB`'s own computation would produce a
different router.  Hence the cache structure is shared across instances,
refuting per-instance ownership. -/
theorem claim5_counterexample :
    (roomB.build_router 0 ["walk"] false [] []
        (roomA.build_router 0 ["walk"] false [] [] []).2.1).2.2 = false
    ∧ (roomB.build_router 0 ["walk"] false [] []
        (roomA.build_router 0 ["walk"] false [] [] []).2.1).1
      = (roomA.build_router 0 ["walk"] false [] [] []).1
    ∧ (roomB.build_router 0 ["walk"] false [] [] []).1
      ≠ (roomA.build_router 0 ["walk"] false [] [] []).1 := by
  obtain ⟨h1, h2⟩ := build_router_cross_instance roomA roomB 0 ["walk"] false
    [] [] (by decide)
  refine ⟨h2, h1, ?_⟩
  intro h
  have h3 : (⟨roomB.n, shortest_path (roomB.weighted
        (selectedIdxs roomB.ctypes ["walk"]) false
        (selectedIdxs roomB.excludableNames [])
        (selectedIdxs roomB.excludableNames []))⟩ : RoomRouter)
      = ⟨roomA.n, shortest_path (roomA.weighted
        (selectedIdxs roomA.ctypes ["walk"]) false
        (selectedIdxs roomA.excludableNames [])
        (selectedIdxs roomA.excludableNames []))⟩ := h
  injection h3 with hfst hsnd
  have h5 := congrFun (congrFun hsnd ⟨0, by decide⟩) ⟨1, by decide⟩
  have hA : @shortest_path 2 (fun i j : Fin 2 =>
      roomA.weighted [0] false [] [] i j) 0 1 = ((5:ℚ):Cost) := roomA_spd
  have hB : @shortest_path 2 (fun i j : Fin 2 =>
      roomB.weighted [0] false [] [] i j) 0 1 = ((7:ℚ):Cost) := roomB_spd
  have h6 : ((7:ℚ):Cost) = ((5:ℚ):Cost) := by
    rw [← hA, ← hB]
    exact h5
  exact absurd h6 (by decide)
